import Mathlib

/-!
Shallow embedding of the RustTracer core (BVH build and traversal, primitive
intersection, material scattering, recursive integrator) for verification.

Modelling conventions, applied uniformly:

* `f32` scalars are modelled as exact rationals (`ℚ`).  Lean's rational
  division returns `0` on a zero divisor; theorems that depend on division
  behaviour carry nonzero-divisor hypotheses where this matters.
* `f32::sqrt` is transcendental over ℚ, so every intersection routine is
  parameterised by an abstract square-root model `sq : ℚ → ℚ`; likewise the
  sphere UV mapping (which uses `acos`/`atan2`) is an abstract `uv`
  parameter, and texture lookup (`TEXTURE_LIST[i].value`) is an abstract
  `tex` parameter.
* Calls to the thread-local RNG are determinised by threading the drawn
  values as explicit data: the random axis stream of the BVH build is a
  function on tree paths, the `Medium` variant carries the value of
  `rand::random::<f32>().ln()` as an extra field, and `scatter` receives the
  unit-sphere sample and the uniform draw as arguments.
* `f32::MAX` is the exact rational value of the largest finite `f32`;
  `f32::INFINITY` is modelled by a rational strictly above every finite
  `f32` value (it only ever flows into comparisons and `min`).
* The two recursions that are not structurally terminating in the source
  (`Tree::con` on slices, `Tree::hit` on arena indices) are given explicit
  fuel; the theorems show the fuel is irrelevant on the inputs the claims
  quantify over.
-/

namespace RustTracer


/-- Model of a 3-component `f32` vector (`Vec3`, also used as `Point3` and
`Color`). -/
structure Vec3 where
  x : ℚ
  y : ℚ
  z : ℚ
deriving DecidableEq, Repr

/-- Component access, `Index<usize> for Vec3` restricted to the in-bounds
indices 0, 1, 2 (the source panics out of bounds). -/
def Vec3.nth (v : Vec3) : Fin 3 → ℚ
  | 0 => v.x
  | 1 => v.y
  | 2 => v.z

/-- `Vec3::new`. -/
def Vec3.mk3 (x y z : ℚ) : Vec3 := ⟨x, y, z⟩

instance : Add Vec3 := ⟨fun a b => ⟨a.x + b.x, a.y + b.y, a.z + b.z⟩⟩

instance : Sub Vec3 := ⟨fun a b => ⟨a.x - b.x, a.y - b.y, a.z - b.z⟩⟩

instance : Neg Vec3 := ⟨fun a => ⟨-a.x, -a.y, -a.z⟩⟩

/-- Component-wise product (`Mul for Vec3`). -/
instance : Mul Vec3 := ⟨fun a b => ⟨a.x * b.x, a.y * b.y, a.z * b.z⟩⟩

/-- Scalar product (`Mul<f32> for Vec3`). -/
instance : HMul Vec3 ℚ Vec3 := ⟨fun a s => ⟨a.x * s, a.y * s, a.z * s⟩⟩

/-- Scalar division (`Div<f32> for Vec3`). -/
instance : HDiv Vec3 ℚ Vec3 := ⟨fun a s => ⟨a.x / s, a.y / s, a.z / s⟩⟩

/-- `Vec3::length_squared`. -/
def Vec3.length_squared (v : Vec3) : ℚ :=
  v.x * v.x + v.y * v.y + v.z * v.z

/-- `dot`. -/
def dot (v1 v2 : Vec3) : ℚ :=
  v1.x * v2.x + v1.y * v2.y + v1.z * v2.z

/-- `Vec3::length`, with the square root modelled by the abstract `sq`. -/
def Vec3.lengthM (sq : ℚ → ℚ) (v : Vec3) : ℚ :=
  sq v.length_squared

/-- `Vec3::unit_vector`, with the square root modelled by `sq`. -/
def Vec3.unit_vector (sq : ℚ → ℚ) (v : Vec3) : Vec3 :=
  v / v.lengthM sq

/-- `Vec3::reflect`. -/
def Vec3.reflect (v n : Vec3) : Vec3 :=
  v - n * (2 * dot v n)

/-- `Vec3::refract`, with the square root modelled by `sq`.  `abs` is exact
on ℚ. -/
def Vec3.refract (sq : ℚ → ℚ) (v n : Vec3) (etai_over_etat : ℚ) : Vec3 :=
  let cos : ℚ := if dot (-v) n < 1 then dot (-v) n else 1
  let r_perp : Vec3 := (v + n * cos) * etai_over_etat
  let r_parallel : Vec3 := n * (-(sq |1 - r_perp.length_squared|))
  r_perp + r_parallel

/-- `Point3` is an alias of `Vec3` in the source. -/
abbrev Point3 := Vec3

/-- `Color` is an alias of `Vec3` in the source. -/
abbrev Color := Vec3

/-- The `Ray` struct: origin plus direction. -/
structure Ray where
  origin_point : Point3
  direction : Vec3
deriving DecidableEq, Repr

/-- `Ray::at`. -/
def Ray.at (r : Ray) (ti : ℚ) : Point3 :=
  r.origin_point + r.direction * ti

/-- Axis-aligned bounding box. -/
structure AABB where
  minimum : Point3
  maximum : Point3
deriving DecidableEq, Repr

/-- The slab entry value for axis `i` after the direction-sign swap of
`AABB::hit` (the value `max`ed into the running lower bound). -/
def AABB.entry (b : AABB) (r : Ray) (i : Fin 3) : ℚ :=
  if r.direction.nth i < 0 then
    (b.maximum.nth i - r.origin_point.nth i) / r.direction.nth i
  else
    (b.minimum.nth i - r.origin_point.nth i) / r.direction.nth i

/-- The slab exit value for axis `i` after the direction-sign swap of
`AABB::hit` (the value `min`ed into the running upper bound). -/
def AABB.exit (b : AABB) (r : Ray) (i : Fin 3) : ℚ :=
  if r.direction.nth i < 0 then
    (b.minimum.nth i - r.origin_point.nth i) / r.direction.nth i
  else
    (b.maximum.nth i - r.origin_point.nth i) / r.direction.nth i

/-- `AABB::hit`: the three iterations of the slab-test loop, with the early
`return false` of each iteration made explicit. -/
def AABB.hit (b : AABB) (r : Ray) (t_min t_max : ℚ) : Bool :=
  let mi0 := max t_min (b.entry r 0)
  let ma0 := min t_max (b.exit r 0)
  if ma0 ≤ mi0 then false
  else
    let mi1 := max mi0 (b.entry r 1)
    let ma1 := min ma0 (b.exit r 1)
    if ma1 ≤ mi1 then false
    else
      let mi2 := max mi1 (b.entry r 2)
      let ma2 := min ma1 (b.exit r 2)
      if ma2 ≤ mi2 then false
      else true

/-- `surrounding_box`. -/
def surrounding_box (box0 box1 : AABB) : AABB :=
  { minimum := ⟨min box0.minimum.x box1.minimum.x,
                min box0.minimum.y box1.minimum.y,
                min box0.minimum.z box1.minimum.z⟩,
    maximum := ⟨max box0.maximum.x box1.maximum.x,
                max box0.maximum.y box1.maximum.y,
                max box0.maximum.z box1.maximum.z⟩ }

/-- Box `outer` contains box `inner`: component-wise bound on both corners.
(Specification-side notion used to state the `surrounding_box` claim.) -/
def AABB.contains (outer inner : AABB) : Prop :=
  outer.minimum.x ≤ inner.minimum.x ∧ outer.minimum.y ≤ inner.minimum.y ∧
  outer.minimum.z ≤ inner.minimum.z ∧ inner.maximum.x ≤ outer.maximum.x ∧
  inner.maximum.y ≤ outer.maximum.y ∧ inner.maximum.z ≤ outer.maximum.z

instance (outer inner : AABB) : Decidable (outer.contains inner) := by
  unfold AABB.contains
  infer_instance

/-- The `Material` enum.  Texture handles are bare indices into the external
texture store. -/
inductive Material where
  | Lambertian (texture_id : ℕ)
  | Metal (albedo : Color) (fuzz : ℚ)
  | Dielectric (c : Color) (ir : ℚ)
  | Light (texture_id : ℕ)
  | Isotropic (texture_id : ℕ)
deriving DecidableEq, Repr

/-- The `HitRecord` struct. -/
structure HitRecord where
  p : Point3
  normal : Vec3
  mat : Material
  t : ℚ
  u : ℚ
  v : ℚ
  front_facing : Bool
deriving DecidableEq, Repr

/-- `HitRecord::new`.  `usize::MAX` is 2^64 - 1 on the target. -/
def HitRecord.new : HitRecord :=
  { p := ⟨0, 0, 0⟩, normal := ⟨0, 0, 0⟩, t := 0, front_facing := false,
    mat := Material.Lambertian (2 ^ 64 - 1), u := 0, v := 0 }

/-- `HitRecord::set_front_face_normal`. -/
def HitRecord.set_front_face_normal (rec : HitRecord) (r : Ray)
    (outward_normal : Vec3) : HitRecord :=
  let ff := dot r.direction outward_normal < 0
  { rec with
    front_facing := ff,
    normal := if ff then outward_normal else -outward_normal }

/-- `Vec3::near_zero`. -/
def Vec3.near_zero (v : Vec3) : Bool :=
  decide (|v.x| < 1 / 10000 ∧ |v.y| < 1 / 10000 ∧ |v.z| < 1 / 10000)

/-- The exact value of `f32::MAX`, `(2 - 2^-23) * 2^127`. -/
def fMAX : ℚ := 2 ^ 128 - 2 ^ 104

/-- Model of `f32::INFINITY`: a rational strictly greater than every finite
`f32` value (it only ever flows into comparisons and `min` in this core). -/
def fINF : ℚ := 2 ^ 129

/-- The `Hittable` enum.  The `Medium` variant carries one extra field
`lnu`, the determinised value of the `rand::random::<f32>().ln()` draw its
`hit` arm performs. -/
inductive Hittable where
  | Sphere (mat : Material) (center : Point3) (radius : ℚ)
  | XYRect (mat : Material) (x0 x1 y0 y1 k : ℚ)
  | XZRect (mat : Material) (x0 x1 z0 z1 k : ℚ)
  | YZRect (mat : Material) (y0 y1 z0 z1 k : ℚ)
  | Box (mat : Material) (minimum maximum : Point3)
  | Medium (mat : Material) (b : Hittable) (density : ℚ) (lnu : ℚ)
deriving DecidableEq, Repr

/-- Structural measure used to justify the recursion in `Hittable.hit`:
the `Box` arm recurses into six freshly built rectangles. -/
def Hittable.sizeH : Hittable → ℕ
  | .Medium _ b _ _ => b.sizeH + 1
  | .Box _ _ _ => 13
  | _ => 1

/-- `Hittable::bounding_box`. -/
def Hittable.bounding_box : Hittable → AABB
  | .Sphere _ center radius =>
      ⟨center - Vec3.mk3 radius radius radius,
       center + Vec3.mk3 radius radius radius⟩
  | .XYRect _ x0 x1 y0 y1 k => ⟨⟨x0, y0, k - 1 / 1000⟩, ⟨x1, y1, k + 1 / 1000⟩⟩
  | .XZRect _ x0 x1 z0 z1 k => ⟨⟨x0, k - 1 / 1000, z0⟩, ⟨x1, k + 1 / 1000, z1⟩⟩
  | .YZRect _ y0 y1 z0 z1 k => ⟨⟨k - 1 / 1000, y0, z0⟩, ⟨k + 1 / 1000, y1, z1⟩⟩
  | .Medium _ b _ _ => b.bounding_box
  | .Box _ minimum maximum => ⟨minimum, maximum⟩

/-- The material stored in a primitive (first field of every variant). -/
def Hittable.matOf : Hittable → Material
  | .Sphere mat _ _ => mat
  | .XYRect mat _ _ _ _ _ => mat
  | .XZRect mat _ _ _ _ _ => mat
  | .YZRect mat _ _ _ _ _ => mat
  | .Box mat _ _ => mat
  | .Medium mat _ _ _ => mat

mutual

/-- `Hittable::hit`.  `sq` models `f32::sqrt`, `uv` models the
`acos`/`atan2`-based spherical UV map of `get_uv`.  The returned record is
the post-call state of the `&mut HitRecord` argument.  The `YZRect` arm
reproduces the source exactly, including its use of `origin.x + t*dir.x`
for the in-plane `y` coordinate. -/
def Hittable.hit (sq : ℚ → ℚ) (uv : Point3 → ℚ × ℚ) (h : Hittable) (r : Ray)
    (t_min t_max : ℚ) (rec : HitRecord) : Bool × HitRecord :=
  match h with
  | .Sphere mat center radius =>
      let oc := r.origin_point - center
      let a := r.direction.length_squared
      let half_b := dot oc r.direction
      let c := oc.length_squared - radius * radius
      let discriminant := half_b * half_b - a * c
      if discriminant < 0 then (false, rec)
      else
        let root1 := (-half_b - sq discriminant) / a
        let root2 := (-half_b + sq discriminant) / a
        let finish : ℚ → Bool × HitRecord := fun root =>
          let p := r.at root
          let outward_normal : Vec3 := (p - center) / radius
          let rec1 := { rec with t := root, p := p }
          let rec2 := rec1.set_front_face_normal r outward_normal
          (true, { rec2 with
                    mat := mat
                    u := (uv outward_normal).1
                    v := (uv outward_normal).2 })
        if root1 < t_min ∨ t_max < root1 then
          if root2 < t_min ∨ t_max < root2 then (false, rec) else finish root2
        else finish root1
  | .XYRect mat x0 x1 y0 y1 k =>
      let t := (k - r.origin_point.z) / r.direction.z
      if t < t_min ∨ t > t_max then (false, rec)
      else
        let x := r.origin_point.x + t * r.direction.x
        let y := r.origin_point.y + t * r.direction.y
        if x < x0 ∨ x > x1 ∨ y < y0 ∨ y > y1 then (false, rec)
        else
          let rec1 := { rec with
                         u := (x - x0) / (x1 - x0)
                         v := (y - y0) / (y1 - y0)
                         t := t
                         mat := mat
                         p := r.at t }
          (true, rec1.set_front_face_normal r ⟨0, 0, 1⟩)
  | .XZRect mat x0 x1 z0 z1 k =>
      let t := (k - r.origin_point.y) / r.direction.y
      if t < t_min ∨ t > t_max then (false, rec)
      else
        let x := r.origin_point.x + t * r.direction.x
        let z := r.origin_point.z + t * r.direction.z
        if x < x0 ∨ x > x1 ∨ z < z0 ∨ z > z1 then (false, rec)
        else
          let rec1 := { rec with
                         u := (x - x0) / (x1 - x0)
                         v := (z - z0) / (z1 - z0)
                         t := t
                         mat := mat
                         p := r.at t }
          (true, rec1.set_front_face_normal r ⟨0, 1, 0⟩)
  | .YZRect mat y0 y1 z0 z1 k =>
      let t := (k - r.origin_point.x) / r.direction.x
      if t < t_min ∨ t > t_max then (false, rec)
      else
        let y := r.origin_point.x + t * r.direction.x
        let z := r.origin_point.z + t * r.direction.z
        if y < y0 ∨ y > y1 ∨ z < z0 ∨ z > z1 then (false, rec)
        else
          let rec1 := { rec with
                         u := (y - y0) / (y1 - y0)
                         v := (z - z0) / (z1 - z0)
                         t := t
                         mat := mat
                         p := r.at t }
          (true, rec1.set_front_face_normal r ⟨1, 0, 0⟩)
  | .Medium mat b density lnu =>
      match Hittable.hit sq uv b r (-fMAX) fMAX HitRecord.new with
      | (false, _) => (false, rec)
      | (true, rec1) =>
        match Hittable.hit sq uv b r (rec1.t + 1 / 10000) fMAX HitRecord.new with
        | (false, _) => (false, rec)
        | (true, rec2) =>
          let t1 := max rec1.t t_min
          let t2 := min rec2.t t_max
          if t1 ≥ t2 then (false, rec)
          else
            let t1c := max t1 0
            let len := r.direction.lengthM sq
            let distance_inside_boundary := (t2 - t1c) * len
            let hit_distance := lnu / (-density)
            if hit_distance > distance_inside_boundary then (false, rec)
            else
              let tHit := t1c + hit_distance / len
              (true, { rec with
                        t := tHit
                        p := r.at tHit
                        normal := ⟨1, 0, 0⟩
                        front_facing := true
                        mat := mat })
  | .Box mat minimum maximum =>
      let side1 := Hittable.XYRect mat minimum.x maximum.x minimum.y maximum.y minimum.z
      let side2 := Hittable.XYRect mat minimum.x maximum.x minimum.y maximum.y maximum.z
      let side3 := Hittable.XZRect mat minimum.x maximum.x minimum.z maximum.z minimum.y
      let side4 := Hittable.XZRect mat minimum.x maximum.x minimum.z maximum.z maximum.y
      let side5 := Hittable.YZRect mat minimum.y maximum.y minimum.z maximum.z minimum.x
      let side6 := Hittable.YZRect mat minimum.y maximum.y minimum.z maximum.z maximum.x
      let res := Hittable.hitSides sq uv [side6, side4, side2, side5, side3, side1]
                   r t_min (false, t_max, HitRecord.new, rec)
      (res.1, res.2.2.2)
termination_by h.sizeH
decreasing_by
  all_goals simp [Hittable.sizeH]

/-- The six `if sideN.hit(...)` blocks of the `Box` arm, folded over the
side list in the source's testing order.  The state is
`(hit_something, closest, temp_rec, rec)`. -/
def Hittable.hitSides (sq : ℚ → ℚ) (uv : Point3 → ℚ × ℚ) (L : List Hittable)
    (r : Ray) (t_min : ℚ) (st : Bool × ℚ × HitRecord × HitRecord) :
    Bool × ℚ × HitRecord × HitRecord :=
  match L with
  | [] => st
  | p :: ps =>
      match Hittable.hit sq uv p r t_min st.2.1 st.2.2.1 with
      | (true, temp1) => Hittable.hitSides sq uv ps r t_min (true, temp1.t, temp1, temp1)
      | (false, temp1) => Hittable.hitSides sq uv ps r t_min (st.1, st.2.1, temp1, st.2.2.2)
termination_by (L.map Hittable.sizeH).sum + L.length
decreasing_by
  all_goals simp [Hittable.sizeH]
  all_goals omega

end

/-- `Material::scatter`.  `tex` models `TEXTURE_LIST[i].value`; `rv` is the
determinised `random_in_unit_sphere()` sample and `rd` the determinised
`rng.gen::<f32>()` draw; `attenuation` and `scattered` are the in-out
arguments, returned (possibly updated) alongside the success flag.  The
`powf(5.0)` of Schlick's approximation is the exact fifth power. -/
def Material.scatter (sq : ℚ → ℚ) (tex : ℕ → ℚ → ℚ → Point3 → Color)
    (rv : Vec3) (rd : ℚ) (m : Material) (r_in : Ray) (rec : HitRecord)
    (attenuation : Color) (scattered : Ray) : Bool × Color × Ray :=
  match m with
  | .Lambertian texture_id =>
      let sd := rec.normal + rv
      let scatter_dir := if sd.near_zero then rec.normal else sd
      (true, tex texture_id rec.u rec.v rec.p, ⟨rec.p, scatter_dir⟩)
  | .Metal albedo fuzz =>
      let reflected := (r_in.direction.unit_vector sq).reflect rec.normal
      let scattered1 : Ray := ⟨rec.p, reflected + rv * fuzz⟩
      (decide (dot scattered1.direction rec.normal > 0), albedo, scattered1)
  | .Dielectric c ir =>
      let refraction_ratio := if rec.front_facing then 1 / ir else ir
      let reflectance : ℚ → ℚ → ℚ := fun cosine ref_idx =>
        let r0 := (1 - ref_idx) / (1 + ref_idx)
        let r0s := r0 * r0
        r0s + (1 - r0s) * (1 - cosine) ^ (5 : ℕ)
      let unit_direction := r_in.direction.unit_vector sq
      let cos := if dot (-unit_direction) rec.normal < 1 then
          dot (-unit_direction) rec.normal
        else 1
      let sin := sq (1 - cos * cos)
      let dir := if refraction_ratio * sin > 1 ∨ reflectance cos refraction_ratio > rd
        then unit_direction.reflect rec.normal
        else unit_direction.refract sq rec.normal refraction_ratio
      (true, c, ⟨rec.p, dir⟩)
  | .Isotropic texture_id =>
      (true, tex texture_id rec.u rec.v rec.p, ⟨rec.p, rv⟩)
  | .Light _ => (false, attenuation, scattered)

/-- `Material::emitted`. -/
def Material.emitted (tex : ℕ → ℚ → ℚ → Point3 → Color) (m : Material)
    (u v : ℚ) (p : Point3) : Color :=
  match m with
  | .Light texture_id => tex texture_id u v p
  | _ => ⟨0, 0, 0⟩

/-- Whether a material is the `Light` variant. -/
def Material.isLight : Material → Bool
  | .Light _ => true
  | _ => false

/-- The arena `Node` of the BVH tree. -/
structure Node where
  left : Option ℕ
  right : Option ℕ
  aabb : Option AABB
  data : Option Hittable
deriving DecidableEq, Repr

/-- The default node used to model an out-of-bounds arena access (the
source panics there; a no-box node is inert under traversal). -/
def Node.junk : Node := ⟨none, none, none, none⟩

/-- The BVH `Tree`: arena of nodes plus root index. -/
structure Tree where
  items : List Node
  root : ℕ
deriving DecidableEq, Repr

/-- The comparator `cmp` on bounding-box minima. -/
def cmp (a b : Hittable) (index : Fin 3) : Ordering :=
  if a.bounding_box.minimum.nth index < b.bounding_box.minimum.nth index then .lt
  else if a.bounding_box.minimum.nth index > b.bounding_box.minimum.nth index then .gt
  else .eq

/-- `Tree::new_leaf` acting on the items arena, returning the new arena and
the pushed index. -/
def Tree.new_leaf (items : List Node) (item : Hittable) : List Node × ℕ :=
  (items ++ [⟨none, none, some item.bounding_box, some item⟩], items.length)

/-- `Tree::new_node` acting on the items arena. -/
def Tree.new_node (items : List Node) (aabb : Option AABB)
    (left right : Option ℕ) : List Node × ℕ :=
  (items ++ [⟨left, right, aabb, none⟩], items.length)

/-- Lines 77-83 of `tree.rs`: combine two freshly built children into an
internal node, falling back to a boxless childless node when either child
lacks a box. -/
def Tree.mkInternal (items : List Node) (left right : ℕ) : List Node × ℕ :=
  match (items.getD left Node.junk).aabb, (items.getD right Node.junk).aabb with
  | some r_box, some l_box =>
      Tree.new_node items (some (surrounding_box r_box l_box)) (some left) (some right)
  | _, _ => Tree.new_node items none none none

/-- `Tree::con`, with explicit fuel for the non-structural recursion and
the per-call random axis draw determinised as a function `ax` on the tree
path (the root call reads `ax []`, the child calls extend the path).
Returns the grown arena and the index of the node built for this slice, or
`none` when the fuel runs out. -/
def Tree.conF : ℕ → (List Bool → Fin 3) → List Hittable → List Node →
    Option (List Node × ℕ)
  | 0, _, _, _ => none
  | fuel + 1, ax, objects, items =>
      let axis := ax []
      let sorted := objects.mergeSort (fun a b => decide (cmp a b axis ≠ Ordering.gt))
      match sorted with
      | [o] => some (Tree.new_leaf items o)
      | [o1, o2] =>
          let st1 := Tree.new_leaf items o1
          let st2 := Tree.new_leaf st1.1 o2
          some (Tree.mkInternal st2.1 st1.2 st2.2)
      | other =>
          let mid := other.length / 2
          let halves := other.splitAt mid
          match Tree.conF fuel (fun p => ax (false :: p)) halves.1 items with
          | none => none
          | some (items1, left) =>
            match Tree.conF fuel (fun p => ax (true :: p)) halves.2 items1 with
            | none => none
            | some (items2, right) => some (Tree.mkInternal items2 left right)

/-- `Tree::build` (fuelled). -/
def Tree.build (fuel : ℕ) (ax : List Bool → Fin 3) (lst : List Hittable) :
    Option Tree :=
  match Tree.conF fuel ax lst [] with
  | none => none
  | some (items, root) => some ⟨items, root⟩

/-- The `match node.left / node.right` child dispatch of `Tree::hit`: an
absent child contributes a miss with the record untouched. -/
def hitChild (o : Option ℕ) (f : ℕ → Bool × HitRecord) (rec : HitRecord) :
    Bool × HitRecord :=
  match o with
  | some i => f i
  | none => (false, rec)

/-- `Tree::hit`, with explicit fuel for the recursion on arena indices (the
theorems show any fuel above the node index is enough for built trees).
The returned record is the post-call state of the `&mut HitRecord`
argument. -/
def Tree.hitF (sq : ℚ → ℚ) (uv : Point3 → ℚ × ℚ) (t : Tree) (fuel : ℕ)
    (r : Ray) (t_min t_max : ℚ) (rec : HitRecord) (index : ℕ) :
    Bool × HitRecord :=
  match fuel with
  | 0 => (false, rec)
  | fuel + 1 =>
      let node := t.items.getD index Node.junk
      match node.aabb with
      | none => (false, rec)
      | some aabb =>
        if aabb.hit r t_min t_max then
          match node.data with
          | some d => d.hit sq uv r t_min t_max rec
          | none =>
            let resL := hitChild node.left
              (fun left => Tree.hitF sq uv t fuel r t_min t_max rec left) rec
            let resR := hitChild node.right
              (fun right =>
                Tree.hitF sq uv t fuel r t_min (if resL.1 then resL.2.t else t_max) rec right) rec
            let recOut :=
              if resL.1 && !resR.1 then resL.2
              else if !resL.1 && resR.1 then resR.2
              else if resL.2.t < resR.2.t then resL.2 else resR.2
            (resL.1 || resR.1, recOut)
        else (false, rec)

/-- The list of primitives stored at the leaves below an arena index, in
left-to-right order (fuelled like `Tree.hitF`). -/
def Tree.leavesF (t : Tree) : ℕ → ℕ → List Hittable
  | 0, _ => []
  | fuel + 1, index =>
      let node := t.items.getD index Node.junk
      match node.data with
      | some d => [d]
      | none =>
          (match node.left with
           | some left => t.leavesF fuel left
           | none => []) ++
          (match node.right with
           | some right => t.leavesF fuel right
           | none => [])

/-- One pass of a brute-force linear scan: each primitive is intersected
against the window `[t_min, closest]` with the caller's record as baseline,
and a successful hit becomes the new incumbent.  State:
`(found, closest, best)`. -/
def scanL (sq : ℚ → ℚ) (uv : Point3 → ℚ × ℚ) (r : Ray) (t_min : ℚ)
    (rec0 : HitRecord) : List Hittable → Bool × ℚ × HitRecord →
    Bool × ℚ × HitRecord
  | [], st => st
  | p :: ps, st =>
      match Hittable.hit sq uv p r t_min st.2.1 rec0 with
      | (true, ρ) => scanL sq uv r t_min rec0 ps (true, ρ.t, ρ)
      | (false, _) => scanL sq uv r t_min rec0 ps st

/-- Brute-force linear scan over a primitive list: nearest hit in
`[t_min, t_max]`, with the caller's record returned unchanged on a miss. -/
def linearHit (sq : ℚ → ℚ) (uv : Point3 → ℚ × ℚ) (L : List Hittable)
    (r : Ray) (t_min t_max : ℚ) (rec0 : HitRecord) : Bool × HitRecord :=
  let s := scanL sq uv r t_min rec0 L (false, t_max, rec0)
  (s.1, if s.1 then s.2.2 else rec0)

/-- `Ray::ray_color`.  `st` is the determinised stream of per-bounce random
draws consumed by `scatter` (unit-sphere sample and uniform draw); the
recursive call consumes the shifted stream. -/
def Ray.ray_color (sq : ℚ → ℚ) (uv : Point3 → ℚ × ℚ)
    (tex : ℕ → ℚ → ℚ → Point3 → Color) (st : ℕ → Vec3 × ℚ) (objs : Tree)
    (r : Ray) (depth : ℤ) : Color :=
  if depth ≤ 0 then ⟨0, 0, 0⟩
  else
    match Tree.hitF sq uv objs (objs.root + 1) r (1 / 1000) fINF HitRecord.new objs.root with
    | (false, _) => ⟨0, 0, 0⟩
    | (true, rec) =>
      let emitted := Material.emitted tex rec.mat rec.u rec.v rec.p
      match Material.scatter sq tex (st 0).1 (st 0).2 rec.mat r rec ⟨0, 0, 0⟩
          ⟨⟨0, 0, 0⟩, ⟨0, 0, 0⟩⟩ with
      | (false, _, _) => emitted
      | (true, attenuation, scattered) =>
          emitted + attenuation *
            Ray.ray_color sq uv tex (fun n => st (n + 1)) objs scattered (depth - 1)
termination_by depth.toNat
decreasing_by
  simp_wf
  omega

/-- The `refraction_ratio` local of the `Dielectric` scatter arm. -/
def refractionRatio (rec : HitRecord) (ir : ℚ) : ℚ :=
  if rec.front_facing then 1 / ir else ir

/-- The `cos` local of the `Dielectric` scatter arm: the clamped cosine of
the incidence angle. -/
def incidenceCos (sq : ℚ → ℚ) (r_in : Ray) (rec : HitRecord) : ℚ :=
  let unit_direction := r_in.direction.unit_vector sq
  if dot (-unit_direction) rec.normal < 1 then dot (-unit_direction) rec.normal
  else 1

/-- The `sin` local of the `Dielectric` scatter arm. -/
def incidenceSin (sq : ℚ → ℚ) (r_in : Ray) (rec : HitRecord) : ℚ :=
  sq (1 - incidenceCos sq r_in rec * incidenceCos sq r_in rec)

/-- The `YZRect` intersection of the C2 failing input: rectangle with
y-range [0,1], z-range [0,1] at x = 1/2, against the ray from (0,5,1/2)
along (1,0,0) in the window [0,10]. -/
def c2hit : Bool × HitRecord :=
  Hittable.hit (fun _ => 0) (fun _ => (0, 0))
    (Hittable.YZRect (Material.Lambertian 0) 0 1 0 1 (1 / 2))
    ⟨⟨0, 5, 1 / 2⟩, ⟨1, 0, 0⟩⟩ 0 10 HitRecord.new

/-- The one-leaf tree that `Tree::build` produces from a single sphere at
(10,0,0) with radius 1. -/
def c5tree : Tree :=
  ⟨[⟨none, none, some ⟨⟨9, -1, -1⟩, ⟨11, 1, 1⟩⟩,
     some (Hittable.Sphere (Material.Lambertian 0) ⟨10, 0, 0⟩ 1)⟩], 0⟩

/-- A leaf node of the arena: stores a primitive, has no children, and its
box is the primitive's bounding box. -/
def nodeIsLeaf (n : Node) : Prop :=
  ∃ p, n.data = some p ∧ n.aabb = some p.bounding_box ∧
    n.left = none ∧ n.right = none

/-- An internal node sitting at position `i` of the arena: stores no
primitive, has two children strictly before position `i`, and its box is
the surrounding box of the children's boxes. -/
def nodeIsInternal (arena : List Node) (i : ℕ) (n : Node) : Prop :=
  ∃ li ri lb rb, n.data = none ∧ n.left = some li ∧ n.right = some ri ∧
    li < i ∧ ri < i ∧
    (arena.getD li Node.junk).aabb = some lb ∧
    (arena.getD ri Node.junk).aabb = some rb ∧
    n.aabb = some (surrounding_box lb rb)

/-- Every arena node is either a leaf or a well-formed internal node. -/
def arenaInv (arena : List Node) : Prop :=
  ∀ i, i < arena.length →
    nodeIsLeaf (arena.getD i Node.junk) ∨
      nodeIsInternal arena i (arena.getD i Node.junk)

/-- Whether a primitive is the `Medium` variant. -/
def Hittable.isMedium : Hittable → Bool
  | .Medium _ _ _ _ => true
  | _ => false

/-- The square-root model used by the C4 concrete instances. -/
def c4sq : ℚ → ℚ := fun _ => 1

/-- The sphere UV model used by the C4 concrete instances. -/
def c4uv : Point3 → ℚ × ℚ := fun _ => (0, 0)

/-- Caller's record for the C4 instances: fresh but with recognisable
texture coordinates u = 7, v = 9. -/
def c4rec : HitRecord :=
  { HitRecord.new with
     u := 7
     v := 9 }

/-- Ray of the C4 `Medium` run: from (-1, 1/2, 1/2) along +x. -/
def c4ray : Ray := ⟨⟨-1, 1 / 2, 1 / 2⟩, ⟨1, 0, 0⟩⟩

/-- The C4 `Medium` run: a constant medium of density 1 (ln-draw -1/2)
bounding the unit box, probed by `c4ray` in the window [0, 10]. -/
def c4hit : Bool × HitRecord :=
  Hittable.hit c4sq c4uv
    (Hittable.Medium (Material.Lambertian 0)
      (Hittable.Box (Material.Lambertian 0) ⟨0, 0, 0⟩ ⟨1, 1, 1⟩) 1 (-(1 / 2)))
    c4ray 0 10 c4rec

/-- Sphere hit by the C4 witness instances. -/
def c4sph : Hittable := Hittable.Sphere (Material.Lambertian 0) ⟨2, 2, 2⟩ 1

/-- Sphere the C4 witness's miss instance shoots past. -/
def c4sphMiss : Hittable := Hittable.Sphere (Material.Lambertian 0) ⟨0, 10, 0⟩ 1

/-- Ray hitting `c4sph`. -/
def c4ray2 : Ray := ⟨⟨0, 0, 0⟩, ⟨1, 1, 1⟩⟩

/-- Ray missing the root box of `c4tree`. -/
def c4ray3 : Ray := ⟨⟨0, 0, 0⟩, ⟨-1, -1, -1⟩⟩

/-- One-leaf tree holding `c4sph`. -/
def c4tree : Tree :=
  ⟨[⟨none, none, some ⟨⟨1, 1, 1⟩, ⟨3, 3, 3⟩⟩, some c4sph⟩], 0⟩

/-- The record `c4sph` reports for `c4ray2`. -/
def c4rho : HitRecord :=
  { p := ⟨5 / 3, 5 / 3, 5 / 3⟩
    normal := ⟨-(1 / 3), -(1 / 3), -(1 / 3)⟩
    mat := Material.Lambertian 0
    t := 5 / 3
    u := 0
    v := 0
    front_facing := true }

/-- Rectangle of the C1 counterexample. -/
def c1rect : Hittable := Hittable.XYRect (Material.Lambertian 0) 0 1 0 1 1

/-- The tree `Tree::build` produces from the one-element list `[c1rect]`. -/
def c1tree : Tree :=
  ⟨[⟨none, none, some ⟨⟨0, 0, 999 / 1000⟩, ⟨1, 1, 1001 / 1000⟩⟩,
     some c1rect⟩], 0⟩

/-- Ray of the C1 counterexample: it exits the leaf box's x-slab exactly
at the window's lower end. -/
def c1ray : Ray := ⟨⟨0, 0, 0⟩, ⟨1, 1 / 2, 1⟩⟩

/-- Sphere the C1 witness ray misses entirely (negative discriminant). -/
def c1wsph : Hittable := Hittable.Sphere (Material.Lambertian 0) ⟨10, 0, 0⟩ 1

/-- The tree built from the one-element list `[c1wsph]`. -/
def c1wtree : Tree :=
  ⟨[⟨none, none, some ⟨⟨9, -1, -1⟩, ⟨11, 1, 1⟩⟩, some c1wsph⟩], 0⟩

/-- Ray of the C1 witness: from the origin along +z, missing `c1wsph`. -/
def c1wray : Ray := ⟨⟨0, 0, 0⟩, ⟨0, 0, 1⟩⟩

theorem Vec3.add_def (a b : Vec3) : a + b = ⟨a.x + b.x, a.y + b.y, a.z + b.z⟩ := rfl

theorem Vec3.sub_def (a b : Vec3) : a - b = ⟨a.x - b.x, a.y - b.y, a.z - b.z⟩ := rfl

theorem Vec3.neg_def (a : Vec3) : -a = ⟨-a.x, -a.y, -a.z⟩ := rfl

theorem Vec3.mul_def (a b : Vec3) : a * b = ⟨a.x * b.x, a.y * b.y, a.z * b.z⟩ := rfl

theorem Vec3.smul_def (a : Vec3) (s : ℚ) : a * s = ⟨a.x * s, a.y * s, a.z * s⟩ := rfl

theorem Vec3.sdiv_def (a : Vec3) (s : ℚ) : a / s = ⟨a.x / s, a.y / s, a.z / s⟩ := rfl

@[simp] theorem Vec3.add_x (a b : Vec3) : (a + b).x = a.x + b.x := rfl

@[simp] theorem Vec3.add_y (a b : Vec3) : (a + b).y = a.y + b.y := rfl

@[simp] theorem Vec3.add_z (a b : Vec3) : (a + b).z = a.z + b.z := rfl

@[simp] theorem Vec3.sub_x (a b : Vec3) : (a - b).x = a.x - b.x := rfl

@[simp] theorem Vec3.sub_y (a b : Vec3) : (a - b).y = a.y - b.y := rfl

@[simp] theorem Vec3.sub_z (a b : Vec3) : (a - b).z = a.z - b.z := rfl

@[simp] theorem Vec3.neg_x (a : Vec3) : (-a).x = -a.x := rfl

@[simp] theorem Vec3.neg_y (a : Vec3) : (-a).y = -a.y := rfl

@[simp] theorem Vec3.neg_z (a : Vec3) : (-a).z = -a.z := rfl

@[simp] theorem Vec3.mul_x (a b : Vec3) : (a * b).x = a.x * b.x := rfl

@[simp] theorem Vec3.mul_y (a b : Vec3) : (a * b).y = a.y * b.y := rfl

@[simp] theorem Vec3.mul_z (a b : Vec3) : (a * b).z = a.z * b.z := rfl

@[simp] theorem Vec3.smul_x (a : Vec3) (s : ℚ) : (a * s).x = a.x * s := rfl

@[simp] theorem Vec3.smul_y (a : Vec3) (s : ℚ) : (a * s).y = a.y * s := rfl

@[simp] theorem Vec3.smul_z (a : Vec3) (s : ℚ) : (a * s).z = a.z * s := rfl

@[simp] theorem Vec3.div_x (a : Vec3) (s : ℚ) : (a / s).x = a.x / s := rfl

@[simp] theorem Vec3.div_y (a : Vec3) (s : ℚ) : (a / s).y = a.y / s := rfl

@[simp] theorem Vec3.div_z (a : Vec3) (s : ℚ) : (a / s).z = a.z / s := rfl

/-- C7: `surrounding_box(A, B)` contains both of its arguments and is the
tightest axis-aligned box doing so: any box containing both `A` and `B`
also contains `surrounding_box A B`. -/
theorem claim_C7 (A B : AABB)
    (_hA : A.minimum.x ≤ A.maximum.x ∧ A.minimum.y ≤ A.maximum.y ∧
          A.minimum.z ≤ A.maximum.z)
    (_hB : B.minimum.x ≤ B.maximum.x ∧ B.minimum.y ≤ B.maximum.y ∧
          B.minimum.z ≤ B.maximum.z) :
    (surrounding_box A B).contains A ∧ (surrounding_box A B).contains B ∧
    ∀ C : AABB, C.contains A → C.contains B →
      C.contains (surrounding_box A B) := by
  refine ⟨⟨min_le_left _ _, min_le_left _ _, min_le_left _ _,
           le_max_left _ _, le_max_left _ _, le_max_left _ _⟩,
          ⟨min_le_right _ _, min_le_right _ _, min_le_right _ _,
           le_max_right _ _, le_max_right _ _, le_max_right _ _⟩, ?_⟩
  intro C hCA hCB
  obtain ⟨a1, a2, a3, a4, a5, a6⟩ := hCA
  obtain ⟨b1, b2, b3, b4, b5, b6⟩ := hCB
  exact ⟨le_min a1 b1, le_min a2 b2, le_min a3 b3,
         max_le a4 b4, max_le a5 b5, max_le a6 b6⟩

/-- C7 witness: the theorem instantiated at two concrete ordered boxes. -/
theorem claim_C7_witness :
    (surrounding_box ⟨⟨0, 0, 0⟩, ⟨1, 1, 1⟩⟩ ⟨⟨-1, 0, 0⟩, ⟨2, 1, 3⟩⟩).contains
      ⟨⟨0, 0, 0⟩, ⟨1, 1, 1⟩⟩ :=
  (claim_C7 ⟨⟨0, 0, 0⟩, ⟨1, 1, 1⟩⟩ ⟨⟨-1, 0, 0⟩, ⟨2, 1, 3⟩⟩
    (by norm_num) (by norm_num)).1

/-- C9: `scatter` on a `Light` material always fails, and `emitted` is the
zero colour on every variant other than `Light`. -/
theorem claim_C9 :
    (∀ (sq : ℚ → ℚ) (tex : ℕ → ℚ → ℚ → Point3 → Color) (rv : Vec3) (rd : ℚ)
       (i : ℕ) (r_in : Ray) (rec : HitRecord) (att : Color) (scat : Ray),
       (Material.scatter sq tex rv rd (Material.Light i) r_in rec att scat).1
         = false) ∧
    (∀ (tex : ℕ → ℚ → ℚ → Point3 → Color) (m : Material) (u v : ℚ)
       (p : Point3), m.isLight = false →
       Material.emitted tex m u v p = ⟨0, 0, 0⟩) := by
  constructor
  · intro sq tex rv rd i r_in rec att scat
    rfl
  · intro tex m u v p hm
    cases m with
    | Light i => exact absurd hm (by simp [Material.isLight])
    | Lambertian i => rfl
    | Metal a f => rfl
    | Dielectric c ir => rfl
    | Isotropic i => rfl

/-- C9 witness: the theorem at a concrete light scatter and a concrete
non-light emission query. -/
theorem claim_C9_witness :
    (Material.scatter (fun _ => 0) (fun _ _ _ _ => ⟨1, 1, 1⟩) ⟨0, 0, 0⟩ 0
      (Material.Light 3) ⟨⟨0, 0, 0⟩, ⟨1, 0, 0⟩⟩ HitRecord.new ⟨0, 0, 0⟩
      ⟨⟨0, 0, 0⟩, ⟨0, 0, 0⟩⟩).1 = false ∧
    Material.emitted (fun _ _ _ _ => ⟨1, 1, 1⟩) (Material.Metal ⟨1, 1, 1⟩ 0)
      0 0 ⟨0, 0, 0⟩ = ⟨0, 0, 0⟩ :=
  ⟨claim_C9.1 _ _ _ _ _ _ _ _ _,
   claim_C9.2 _ (Material.Metal ⟨1, 1, 1⟩ 0) 0 0 ⟨0, 0, 0⟩ rfl⟩

/-- C8: the `Dielectric` scatter arm always succeeds, and under total
internal reflection (`refraction_ratio * sin > 1`) the scattered direction
is the reflection of the unit incoming direction about the hit normal, for
every value of the Schlick-reflectance random draw. -/
theorem claim_C8 (sq : ℚ → ℚ) (tex : ℕ → ℚ → ℚ → Point3 → Color) (rv : Vec3)
    (rd : ℚ) (c : Color) (ir : ℚ) (r_in : Ray) (rec : HitRecord) (att : Color)
    (scat : Ray) :
    (Material.scatter sq tex rv rd (Material.Dielectric c ir) r_in rec att
      scat).1 = true ∧
    (refractionRatio rec ir * incidenceSin sq r_in rec > 1 →
      (Material.scatter sq tex rv rd (Material.Dielectric c ir) r_in rec att
        scat).2.2.direction =
        (r_in.direction.unit_vector sq).reflect rec.normal) := by
  constructor
  · rfl
  · intro htir
    unfold refractionRatio incidenceSin incidenceCos at htir
    simp only [Material.scatter]
    dsimp only
    rw [if_pos (Or.inl htir)]

/-- C8 witness: a concrete total-internal-reflection configuration (back
face, index 3, square-root model returning 1, so ratio * sin = 3 > 1). -/
theorem claim_C8_witness :
    refractionRatio ⟨⟨0, 0, 0⟩, ⟨0, 1, 0⟩, Material.Lambertian 0, 0, 0, 0, false⟩ 3 *
      incidenceSin (fun _ => 1) ⟨⟨0, 0, 0⟩, ⟨1, 0, 0⟩⟩
        ⟨⟨0, 0, 0⟩, ⟨0, 1, 0⟩, Material.Lambertian 0, 0, 0, 0, false⟩ > 1 ∧
    (Material.scatter (fun _ => 1) (fun _ _ _ _ => ⟨0, 0, 0⟩) ⟨0, 0, 0⟩ 0
      (Material.Dielectric ⟨1, 1, 1⟩ 3) ⟨⟨0, 0, 0⟩, ⟨1, 0, 0⟩⟩
      ⟨⟨0, 0, 0⟩, ⟨0, 1, 0⟩, Material.Lambertian 0, 0, 0, 0, false⟩ ⟨0, 0, 0⟩
      ⟨⟨0, 0, 0⟩, ⟨0, 0, 0⟩⟩).2.2.direction =
      ((⟨⟨0, 0, 0⟩, ⟨1, 0, 0⟩⟩ : Ray).direction.unit_vector
        (fun _ => 1)).reflect ⟨0, 1, 0⟩ := by
  have htir : refractionRatio
      ⟨⟨0, 0, 0⟩, ⟨0, 1, 0⟩, Material.Lambertian 0, 0, 0, 0, false⟩ 3 *
      incidenceSin (fun _ => 1) ⟨⟨0, 0, 0⟩, ⟨1, 0, 0⟩⟩
        ⟨⟨0, 0, 0⟩, ⟨0, 1, 0⟩, Material.Lambertian 0, 0, 0, 0, false⟩ > 1 := by
    norm_num [refractionRatio, incidenceSin, incidenceCos, Vec3.unit_vector,
      Vec3.lengthM, Vec3.length_squared, dot]
  refine ⟨htir, ?_⟩
  exact (claim_C8 (fun _ => 1) (fun _ _ _ _ => ⟨0, 0, 0⟩) ⟨0, 0, 0⟩ 0
    ⟨1, 1, 1⟩ 3 ⟨⟨0, 0, 0⟩, ⟨1, 0, 0⟩⟩
    ⟨⟨0, 0, 0⟩, ⟨0, 1, 0⟩, Material.Lambertian 0, 0, 0, 0, false⟩ ⟨0, 0, 0⟩
    ⟨⟨0, 0, 0⟩, ⟨0, 0, 0⟩⟩).2 htir

/-- C6: `AABB::hit` returns `true` exactly when a non-empty interval
survives the intersection of `[t_min, t_max]` with all three per-axis slab
intervals, emptiness being judged by `t_max <= t_min`. -/
theorem claim_C6 (b : AABB) (r : Ray) (t_min t_max : ℚ) :
    AABB.hit b r t_min t_max = true ↔
      max (max (max t_min (b.entry r 0)) (b.entry r 1)) (b.entry r 2) <
        min (min (min t_max (b.exit r 0)) (b.exit r 1)) (b.exit r 2) := by
  have m01 : max t_min (b.entry r 0) ≤ max (max t_min (b.entry r 0)) (b.entry r 1) :=
    le_max_left _ _
  have m12 : max (max t_min (b.entry r 0)) (b.entry r 1) ≤
      max (max (max t_min (b.entry r 0)) (b.entry r 1)) (b.entry r 2) :=
    le_max_left _ _
  have n01 : min (min t_max (b.exit r 0)) (b.exit r 1) ≤ min t_max (b.exit r 0) :=
    min_le_left _ _
  have n12 : min (min (min t_max (b.exit r 0)) (b.exit r 1)) (b.exit r 2) ≤
      min (min t_max (b.exit r 0)) (b.exit r 1) :=
    min_le_left _ _
  unfold AABB.hit
  dsimp only
  split_ifs with h0 h1 h2
  · simp only [Bool.false_eq_true, false_iff, not_lt]
    calc min (min (min t_max (b.exit r 0)) (b.exit r 1)) (b.exit r 2) ≤
          min t_max (b.exit r 0) := le_trans n12 n01
      _ ≤ max t_min (b.entry r 0) := h0
      _ ≤ _ := le_trans m01 m12
  · simp only [Bool.false_eq_true, false_iff, not_lt]
    calc min (min (min t_max (b.exit r 0)) (b.exit r 1)) (b.exit r 2) ≤
          min (min t_max (b.exit r 0)) (b.exit r 1) := n12
      _ ≤ max (max t_min (b.entry r 0)) (b.entry r 1) := h1
      _ ≤ _ := m12
  · simp only [Bool.false_eq_true, false_iff, not_lt]
    exact h2
  · simp only [true_iff]
    exact not_le.mp h2

set_option maxHeartbeats 1000000 in
/-- C2: the `YZRect` arm of `Hittable::hit` accepts the crossing at
t = 1/2 although the intersection point's y-coordinate there is 5, outside
the declared y-range [0, 1] — the code tests `origin.x + t*dir.x` (which
equals the plane coordinate k, here 1/2) against the y-range instead of
the intersection's y. -/
theorem claim_C2 :
    c2hit.1 = true ∧ c2hit.2.t = 1 / 2 ∧ c2hit.2.p.y = 5 ∧
      ¬ ((0 : ℚ) ≤ 5 ∧ (5 : ℚ) ≤ 1) := by
  simp only [c2hit, Hittable.hit.eq_def]
  norm_num [HitRecord.new, HitRecord.set_front_face_normal, Ray.at, dot]

/-- C5: the recursive radiance estimator returns black at depth <= 0,
black when the tree reports no hit, the material's emitted colour alone
when scatter fails, and emitted plus attenuation times the recursive
colour of the scattered ray at depth-1 when scatter succeeds. -/
theorem claim_C5 (sq : ℚ → ℚ) (uv : Point3 → ℚ × ℚ)
    (tex : ℕ → ℚ → ℚ → Point3 → Color) (st : ℕ → Vec3 × ℚ) (objs : Tree)
    (r : Ray) (depth : ℤ) :
    (depth ≤ 0 → Ray.ray_color sq uv tex st objs r depth = ⟨0, 0, 0⟩) ∧
    (∀ rec', 0 < depth →
      Tree.hitF sq uv objs (objs.root + 1) r (1 / 1000) fINF HitRecord.new
        objs.root = (false, rec') →
      Ray.ray_color sq uv tex st objs r depth = ⟨0, 0, 0⟩) ∧
    (∀ rec att scat, 0 < depth →
      Tree.hitF sq uv objs (objs.root + 1) r (1 / 1000) fINF HitRecord.new
        objs.root = (true, rec) →
      Material.scatter sq tex (st 0).1 (st 0).2 rec.mat r rec ⟨0, 0, 0⟩
        ⟨⟨0, 0, 0⟩, ⟨0, 0, 0⟩⟩ = (false, att, scat) →
      Ray.ray_color sq uv tex st objs r depth =
        Material.emitted tex rec.mat rec.u rec.v rec.p) ∧
    (∀ rec att scat, 0 < depth →
      Tree.hitF sq uv objs (objs.root + 1) r (1 / 1000) fINF HitRecord.new
        objs.root = (true, rec) →
      Material.scatter sq tex (st 0).1 (st 0).2 rec.mat r rec ⟨0, 0, 0⟩
        ⟨⟨0, 0, 0⟩, ⟨0, 0, 0⟩⟩ = (true, att, scat) →
      Ray.ray_color sq uv tex st objs r depth =
        Material.emitted tex rec.mat rec.u rec.v rec.p +
          att * Ray.ray_color sq uv tex (fun n => st (n + 1)) objs scat
            (depth - 1)) := by
  refine ⟨?_, ?_, ?_, ?_⟩
  · intro h
    rw [Ray.ray_color, if_pos h]
  · intro rec' h hmiss
    rw [Ray.ray_color, if_neg (by omega : ¬ depth ≤ 0), hmiss]
  · intro rec att scat h hhit hscat
    rw [Ray.ray_color, if_neg (by omega : ¬ depth ≤ 0), hhit]
    dsimp only
    rw [hscat]
  · intro rec att scat h hhit hscat
    rw [Ray.ray_color, if_neg (by omega : ¬ depth ≤ 0), hhit]
    dsimp only
    rw [hscat]

set_option maxHeartbeats 1000000 in
/-- C5 witness: on the one-sphere scene above, a ray that misses the
sphere's bounding box gets the black colour at depth 1 (no-hit clause) and
at depth 0 (termination clause). -/
theorem claim_C5_witness :
    Tree.build 1 (fun _ => 0)
      [Hittable.Sphere (Material.Lambertian 0) ⟨10, 0, 0⟩ 1] = some c5tree ∧
    Ray.ray_color (fun _ => 0) (fun _ => (0, 0)) (fun _ _ _ _ => ⟨0, 0, 0⟩)
      (fun _ => (⟨0, 0, 0⟩, 0)) c5tree ⟨⟨0, 0, 0⟩, ⟨0, 0, 1⟩⟩ 1 = ⟨0, 0, 0⟩ ∧
    Ray.ray_color (fun _ => 0) (fun _ => (0, 0)) (fun _ _ _ _ => ⟨0, 0, 0⟩)
      (fun _ => (⟨0, 0, 0⟩, 0)) c5tree ⟨⟨0, 0, 0⟩, ⟨0, 0, 1⟩⟩ 0 = ⟨0, 0, 0⟩ := by
  refine ⟨?_, ?_, ?_⟩
  · simp only [Tree.build, Tree.conF, List.mergeSort]
    norm_num [Tree.new_leaf, Hittable.bounding_box, c5tree, Vec3.mk3,
      Vec3.add_def, Vec3.sub_def]
  · refine (claim_C5 (fun _ => 0) (fun _ => (0, 0)) (fun _ _ _ _ => ⟨0, 0, 0⟩)
      (fun _ => (⟨0, 0, 0⟩, 0)) c5tree ⟨⟨0, 0, 0⟩, ⟨0, 0, 1⟩⟩ 1).2.1
      HitRecord.new (by norm_num) ?_
    simp only [c5tree, Tree.hitF]
    norm_num [AABB.hit, AABB.entry, AABB.exit, Vec3.nth, Node.junk]
  · exact (claim_C5 (fun _ => 0) (fun _ => (0, 0)) (fun _ _ _ _ => ⟨0, 0, 0⟩)
      (fun _ => (⟨0, 0, 0⟩, 0)) c5tree ⟨⟨0, 0, 0⟩, ⟨0, 0, 1⟩⟩ 0).1 (by norm_num)

theorem nodeIsInternal_append {arena : List Node} {i : ℕ} {n : Node}
    (ext : List Node) (hi : i ≤ arena.length)
    (h : nodeIsInternal arena i n) : nodeIsInternal (arena ++ ext) i n := by
  obtain ⟨li, ri, lb, rb, h1, h2, h3, h4, h5, h6, h7, h8⟩ := h
  refine ⟨li, ri, lb, rb, h1, h2, h3, h4, h5, ?_, ?_, h8⟩
  · rw [List.getD_append _ _ _ _ (lt_of_lt_of_le h4 hi)]
    exact h6
  · rw [List.getD_append _ _ _ _ (lt_of_lt_of_le h5 hi)]
    exact h7

theorem arenaInv_push {arena : List Node} {n : Node} (h : arenaInv arena)
    (hn : nodeIsLeaf n ∨ nodeIsInternal (arena ++ [n]) arena.length n) :
    arenaInv (arena ++ [n]) := by
  intro i hi
  rw [List.length_append, List.length_singleton] at hi
  rcases Nat.lt_or_ge i arena.length with hlt | hge
  · rw [List.getD_append _ _ _ _ hlt]
    rcases h i hlt with hl | hint
    · exact Or.inl hl
    · exact Or.inr (nodeIsInternal_append [n] (le_of_lt hlt) hint)
  · have hieq : i = arena.length := by omega
    subst hieq
    rw [List.getD_append_right _ _ _ _ (le_refl _), Nat.sub_self]
    simpa using hn

/-- Reading a leaf's primitive list. -/
theorem leavesF_data_some {t : Tree} {fl i : ℕ} {p : Hittable}
    (hfl : 0 < fl) (h : (t.items.getD i Node.junk).data = some p) :
    Tree.leavesF t fl i = [p] := by
  obtain ⟨fl', rfl⟩ : ∃ fl', fl = fl' + 1 := ⟨fl - 1, by omega⟩
  simp only [Tree.leavesF, h]

/-- Reading an internal node's primitive list. -/
theorem leavesF_internal {t : Tree} {fl i li ri : ℕ}
    (hd : (t.items.getD i Node.junk).data = none)
    (hl : (t.items.getD i Node.junk).left = some li)
    (hr : (t.items.getD i Node.junk).right = some ri) :
    Tree.leavesF t (fl + 1) i =
      Tree.leavesF t fl li ++ Tree.leavesF t fl ri := by
  simp only [Tree.leavesF, hd, hl, hr]

theorem conF_nil (fuel : ℕ) : ∀ (ax : List Bool → Fin 3) (items : List Node),
    Tree.conF fuel ax [] items = none := by
  induction fuel with
  | zero => intro ax items; rfl
  | succ fuel ih =>
    intro ax items
    simp only [Tree.conF, List.mergeSort_nil, List.splitAt_eq, List.take_nil,
      List.drop_nil]
    rw [ih]

/-- The master specification of `Tree::con`: on a non-empty slice with
enough fuel it extends the arena by a non-empty block `ext`, returns the
index of the last pushed node, preserves the structural invariant, gives
the root node a box, stores exactly the input primitives at the new
leaves, and the leaf list below the returned root (read on any further
extension of the arena) is the block's primitive list. -/
theorem conF_spec (fuel : ℕ) : ∀ (ax : List Bool → Fin 3) (l : List Hittable)
    (items : List Node), l ≠ [] → l.length ≤ fuel →
    ∃ ext : List Node,
      Tree.conF fuel ax l items =
        some (items ++ ext, items.length + ext.length - 1) ∧
      0 < ext.length ∧
      (ext.filterMap Node.data).Perm l ∧
      (∃ bx, (ext.getD (ext.length - 1) Node.junk).aabb = some bx) ∧
      (arenaInv items → arenaInv (items ++ ext)) ∧
      (∀ (ext2 : List Node) (rt : ℕ) (fl : ℕ),
        items.length + ext.length ≤ fl →
        Tree.leavesF ⟨(items ++ ext) ++ ext2, rt⟩ fl
          (items.length + ext.length - 1) = ext.filterMap Node.data) := by
  induction fuel with
  | zero =>
    intro ax l items hne hlen
    exact absurd (List.length_eq_zero.mp (by omega)) hne
  | succ fuel ih =>
    intro ax l items hne hlen
    have hperm0 : (l.mergeSort
        (fun a b => decide (cmp a b (ax []) ≠ Ordering.gt))).Perm l :=
      List.mergeSort_perm l _
    simp only [Tree.conF]
    rcases hs : l.mergeSort (fun a b => decide (cmp a b (ax []) ≠ Ordering.gt))
      with _ | ⟨o1, _ | ⟨o2, _ | ⟨o3, rest3⟩⟩⟩
    · rw [hs] at hperm0
      exact absurd (hperm0.symm.eq_nil) hne
    · -- singleton slice: one leaf
      rw [hs] at hperm0
      refine ⟨[⟨none, none, some o1.bounding_box, some o1⟩], ?_, by simp, ?_,
        ?_, ?_, ?_⟩
      · simp [Tree.new_leaf]
      · simpa using hperm0
      · simp [Node.junk]
      · intro hinv
        refine arenaInv_push hinv (Or.inl ⟨o1, rfl, rfl, rfl, rfl⟩)
      · intro ext2 rt fl hfl
        simp only [List.length_singleton] at hfl ⊢
        have hdata : ((((items ++
            [(⟨none, none, some o1.bounding_box, some o1⟩ : Node)]) ++
            ext2)).getD (items.length + 1 - 1) Node.junk).data = some o1 := by
          rw [List.getD_append _ _ _ _ (by
            simp only [List.length_append, List.length_singleton]; omega)]
          rw [List.getD_append_right _ _ _ _ (by omega)]
          simp
        rw [@leavesF_data_some ⟨_, rt⟩ _ _ _ (by omega) hdata]
        simp
    · -- two-element slice: two leaves plus one internal node
      rw [hs] at hperm0
      refine ⟨[⟨none, none, some o1.bounding_box, some o1⟩,
               ⟨none, none, some o2.bounding_box, some o2⟩,
               ⟨some items.length, some (items.length + 1),
                some (surrounding_box o1.bounding_box o2.bounding_box),
                none⟩], ?_, by simp, ?_, ?_, ?_, ?_⟩
      · simp only [Tree.new_leaf, Tree.mkInternal]
        have hg1 : (((items ++
            [(⟨none, none, some o1.bounding_box, some o1⟩ : Node)]) ++
            [(⟨none, none, some o2.bounding_box, some o2⟩ : Node)]).getD
            items.length Node.junk) =
            ⟨none, none, some o1.bounding_box, some o1⟩ := by
          rw [List.getD_append _ _ _ _ (by
            simp only [List.length_append, List.length_singleton]; omega)]
          rw [List.getD_append_right _ _ _ _ (le_refl _), Nat.sub_self]
          rfl
        have hg2 : (((items ++
            [(⟨none, none, some o1.bounding_box, some o1⟩ : Node)]) ++
            [(⟨none, none, some o2.bounding_box, some o2⟩ : Node)]).getD
            (items ++
              [(⟨none, none, some o1.bounding_box, some o1⟩ : Node)]).length
            Node.junk) =
            ⟨none, none, some o2.bounding_box, some o2⟩ := by
          rw [List.getD_append_right _ _ _ _ (le_refl _), Nat.sub_self]
          rfl
        rw [hg1, hg2]
        simp only [Tree.new_node, List.append_assoc, List.singleton_append,
          List.cons_append, List.nil_append, List.length_append,
          List.length_cons, List.length_nil, List.length_singleton,
          Option.some.injEq, Prod.mk.injEq]
        exact ⟨trivial, by omega⟩
      · simpa using hperm0
      · simp [Node.junk]
      · intro hinv
        have h1 : arenaInv (items ++ [(⟨none, none, some o1.bounding_box,
            some o1⟩ : Node)]) :=
          arenaInv_push hinv (Or.inl ⟨o1, rfl, rfl, rfl, rfl⟩)
        have h2 : arenaInv ((items ++ [(⟨none, none, some o1.bounding_box,
            some o1⟩ : Node)]) ++ [(⟨none, none, some o2.bounding_box,
            some o2⟩ : Node)]) :=
          arenaInv_push h1 (Or.inl ⟨o2, rfl, rfl, rfl, rfl⟩)
        have hg1 : (((items ++
            [(⟨none, none, some o1.bounding_box, some o1⟩ : Node)]) ++
            [(⟨none, none, some o2.bounding_box, some o2⟩ : Node)]).getD
            items.length Node.junk) =
            ⟨none, none, some o1.bounding_box, some o1⟩ := by
          rw [List.getD_append _ _ _ _ (by
            simp only [List.length_append, List.length_singleton]; omega)]
          rw [List.getD_append_right _ _ _ _ (le_refl _), Nat.sub_self]
          rfl
        have hg2 : (((items ++
            [(⟨none, none, some o1.bounding_box, some o1⟩ : Node)]) ++
            [(⟨none, none, some o2.bounding_box, some o2⟩ : Node)]).getD
            (items ++
              [(⟨none, none, some o1.bounding_box, some o1⟩ : Node)]).length
            Node.junk) =
            ⟨none, none, some o2.bounding_box, some o2⟩ := by
          rw [List.getD_append_right _ _ _ _ (le_refl _), Nat.sub_self]
          rfl
        have hlen2 : ((items ++
            [(⟨none, none, some o1.bounding_box, some o1⟩ : Node)]) ++
            [(⟨none, none, some o2.bounding_box, some o2⟩ : Node)]).length =
            items.length + 2 := by
          simp only [List.length_append, List.length_singleton]
        have h3 := @arenaInv_push _ ⟨some items.length,
            some (items.length + 1),
            some (surrounding_box o1.bounding_box o2.bounding_box), none⟩ h2
          (Or.inr ?_)
        · simpa [List.append_assoc] using h3
        · refine ⟨items.length, items.length + 1, o1.bounding_box,
            o2.bounding_box, rfl, rfl, rfl, by omega, by omega, ?_, ?_, rfl⟩
          · rw [List.getD_append _ _ _ _ (by omega)]
            rw [hg1]
          · rw [List.getD_append _ _ _ _ (by
              rw [hlen2]
              omega)]
            have : items.length + 1 = (items ++
                [(⟨none, none, some o1.bounding_box, some o1⟩ : Node)]).length := by
              simp only [List.length_append, List.length_singleton]
            rw [this, hg2]
      · intro ext2 rt fl hfl
        obtain ⟨fl', rfl⟩ : ∃ fl', fl = fl' + 1 := ⟨fl - 1, by
          simp only [List.length_cons, List.length_nil] at hfl
          omega⟩
        have hlen3 : (items ++ [(⟨none, none, some o1.bounding_box,
            some o1⟩ : Node), ⟨none, none, some o2.bounding_box, some o2⟩,
            ⟨some items.length, some (items.length + 1),
             some (surrounding_box o1.bounding_box o2.bounding_box),
             none⟩]).length = items.length + 3 := by
          simp only [List.length_append, List.length_cons, List.length_nil]
        have hb : ∀ j, j < 3 → (((items ++
            [(⟨none, none, some o1.bounding_box, some o1⟩ : Node),
             ⟨none, none, some o2.bounding_box, some o2⟩,
             ⟨some items.length, some (items.length + 1),
              some (surrounding_box o1.bounding_box o2.bounding_box),
              none⟩]) ++ ext2).getD (items.length + j) Node.junk) =
            ([(⟨none, none, some o1.bounding_box, some o1⟩ : Node),
              ⟨none, none, some o2.bounding_box, some o2⟩,
              ⟨some items.length, some (items.length + 1),
               some (surrounding_box o1.bounding_box o2.bounding_box),
               none⟩].getD j Node.junk) := by
          intro j hj
          rw [List.getD_append _ _ _ _ (by rw [hlen3]; omega)]
          rw [List.getD_append_right _ _ _ _ (by omega)]
          congr 1
          omega
        have hroot := hb 2 (by omega)
        have hn1 : (((items ++
            [(⟨none, none, some o1.bounding_box, some o1⟩ : Node),
             ⟨none, none, some o2.bounding_box, some o2⟩,
             ⟨some items.length, some (items.length + 1),
              some (surrounding_box o1.bounding_box o2.bounding_box),
              none⟩]) ++ ext2).getD items.length Node.junk) =
            ⟨none, none, some o1.bounding_box, some o1⟩ := by
          simpa using hb 0 (by omega)
        have hn2 := hb 1 (by omega)
        simp only [List.length_cons, List.length_nil] at hfl ⊢
        have hroot' : items.length + (2 + 1) - 1 = items.length + 2 := by omega
        rw [hroot']
        rw [@leavesF_internal ⟨_, rt⟩ _ _ items.length
            (items.length + 1) (congrArg Node.data hroot)
            (congrArg Node.left hroot) (congrArg Node.right hroot)]
        rw [@leavesF_data_some _ _ _ o1 (by omega) (congrArg Node.data hn1)]
        rw [@leavesF_data_some _ _ _ o2 (by omega) (congrArg Node.data hn2)]
        simp
    · -- slice of length at least three: midpoint split, two recursive
      -- builds, one internal node on top
      rw [hs] at hperm0
      have hslen : (o1 :: o2 :: o3 :: rest3).length = l.length :=
        hperm0.length_eq
      simp only [List.length_cons] at hslen
      simp only [List.splitAt_eq]
      have hmid1 : 1 ≤ (o1 :: o2 :: o3 :: rest3).length / 2 := by
        simp only [List.length_cons]
        omega
      have hmidlt : (o1 :: o2 :: o3 :: rest3).length / 2 <
          (o1 :: o2 :: o3 :: rest3).length := by
        simp only [List.length_cons]
        omega
      have htklen : ((o1 :: o2 :: o3 :: rest3).take
          ((o1 :: o2 :: o3 :: rest3).length / 2)).length =
          (o1 :: o2 :: o3 :: rest3).length / 2 := by
        rw [List.length_take]
        omega
      have hdplen : ((o1 :: o2 :: o3 :: rest3).drop
          ((o1 :: o2 :: o3 :: rest3).length / 2)).length =
          (o1 :: o2 :: o3 :: rest3).length -
            (o1 :: o2 :: o3 :: rest3).length / 2 := by
        rw [List.length_drop]
      obtain ⟨extL, heqL, hposL, hpermL, ⟨bxL, hbxL⟩, hinvL, hleavesL⟩ :=
        ih (fun p => ax (false :: p))
          ((o1 :: o2 :: o3 :: rest3).take ((o1 :: o2 :: o3 :: rest3).length / 2))
          items
          (by
            intro hnil
            rw [hnil] at htklen
            simp at htklen
            omega)
          (by
            rw [htklen]
            simp only [List.length_cons] at hmidlt ⊢
            omega)
      rw [heqL]
      dsimp only
      obtain ⟨extR, heqR, hposR, hpermR, ⟨bxR, hbxR⟩, hinvR, hleavesR⟩ :=
        ih (fun p => ax (true :: p))
          ((o1 :: o2 :: o3 :: rest3).drop ((o1 :: o2 :: o3 :: rest3).length / 2))
          (items ++ extL)
          (by
            intro hnil
            rw [hnil] at hdplen
            simp only [List.length_nil, List.length_cons] at hdplen
            omega)
          (by
            rw [hdplen]
            simp only [List.length_cons]
            omega)
      rw [heqR]
      dsimp only
      have hgl : ((((items ++ extL) ++ extR).getD
          (items.length + extL.length - 1) Node.junk)).aabb = some bxL := by
        rw [List.getD_append _ _ _ _ (by
          simp only [List.length_append]
          omega)]
        rw [List.getD_append_right _ _ _ _ (by omega)]
        have harith : items.length + extL.length - 1 - items.length =
            extL.length - 1 := by omega
        rw [harith]
        exact hbxL
      have hgr : ((((items ++ extL) ++ extR).getD
          ((items ++ extL).length + extR.length - 1) Node.junk)).aabb =
          some bxR := by
        rw [List.getD_append_right _ _ _ _ (by
          simp only [List.length_append]
          omega)]
        have harith : (items ++ extL).length + extR.length - 1 -
            (items ++ extL).length = extR.length - 1 := by
          simp only [List.length_append]
          omega
        rw [harith]
        exact hbxR
      refine ⟨extL ++ (extR ++ [⟨some (items.length + extL.length - 1),
        some ((items ++ extL).length + extR.length - 1),
        some (surrounding_box bxL bxR), none⟩]), ?_, ?_, ?_, ?_, ?_, ?_⟩
      · simp only [Tree.mkInternal, hgl, hgr, Tree.new_node]
        simp only [List.append_assoc, List.length_append, List.length_cons,
          List.length_nil, List.length_singleton, Option.some.injEq,
          Prod.mk.injEq]
        exact ⟨trivial, by omega⟩
      · simp
      · simp only [List.filterMap_append]
        simp only [List.filterMap, Node.data]
        rw [List.append_nil]
        exact ((hpermL.append hpermR).trans
          (by rw [List.take_append_drop])).trans hperm0
      · refine ⟨surrounding_box bxL bxR, ?_⟩
        rw [List.getD_append_right _ _ _ _ (by
          simp only [List.length_append, List.length_cons, List.length_nil]
          omega)]
        rw [List.getD_append_right _ _ _ _ (by
          simp only [List.length_append, List.length_cons, List.length_nil]
          omega)]
        simp only [List.length_append, List.length_cons, List.length_nil]
        have harith : extL.length + (extR.length + 1) - 1 - extL.length -
            extR.length = 0 := by omega
        rw [harith]
        rfl
      · intro hinv
        have hA := hinvR (hinvL hinv)
        have hpush := @arenaInv_push
          _ ⟨some (items.length + extL.length - 1),
            some ((items ++ extL).length + extR.length - 1),
            some (surrounding_box bxL bxR), none⟩ hA (Or.inr ?_)
        · have hassoc : ((items ++ extL) ++ extR) ++
              [(⟨some (items.length + extL.length - 1),
                some ((items ++ extL).length + extR.length - 1),
                some (surrounding_box bxL bxR), none⟩ : Node)] =
              items ++ (extL ++ (extR ++
              [⟨some (items.length + extL.length - 1),
                some ((items ++ extL).length + extR.length - 1),
                some (surrounding_box bxL bxR), none⟩])) := by
            simp only [List.append_assoc]
          rw [hassoc] at hpush
          exact hpush
        · refine ⟨items.length + extL.length - 1,
            (items ++ extL).length + extR.length - 1, bxL, bxR, rfl, rfl, rfl,
            by
              simp only [List.length_append]
              omega,
            by
              simp only [List.length_append]
              omega, ?_, ?_, rfl⟩
          · rw [List.getD_append _ _ _ _ (by
              simp only [List.length_append]
              omega)]
            exact hgl
          · rw [List.getD_append _ _ _ _ (by
              simp only [List.length_append]
              omega)]
            exact hgr
      · intro ext2 rt fl hfl
        simp only [List.length_append, List.length_cons, List.length_nil]
          at hfl
        obtain ⟨fl', rfl⟩ : ∃ fl', fl = fl' + 1 := ⟨fl - 1, by omega⟩
        have hextlen : (extL ++ (extR ++
            [(⟨some (items.length + extL.length - 1),
              some ((items ++ extL).length + extR.length - 1),
              some (surrounding_box bxL bxR), none⟩ : Node)])).length =
            extL.length + (extR.length + 1) := by
          simp only [List.length_append, List.length_cons, List.length_nil]
        rw [hextlen]
        have hassoc : (items ++ (extL ++ (extR ++
            [(⟨some (items.length + extL.length - 1),
              some ((items ++ extL).length + extR.length - 1),
              some (surrounding_box bxL bxR), none⟩ : Node)]))) ++ ext2 =
            ((items ++ extL) ++ extR) ++
            ((⟨some (items.length + extL.length - 1),
              some ((items ++ extL).length + extR.length - 1),
              some (surrounding_box bxL bxR), none⟩ : Node) :: ext2) := by
          simp only [List.append_assoc, List.cons_append, List.nil_append]
        rw [hassoc]
        have hroot : ((((items ++ extL) ++ extR) ++
            ((⟨some (items.length + extL.length - 1),
              some ((items ++ extL).length + extR.length - 1),
              some (surrounding_box bxL bxR), none⟩ : Node) :: ext2)).getD
            (items.length + (extL.length + (extR.length + 1)) - 1)
            Node.junk) =
            ⟨some (items.length + extL.length - 1),
              some ((items ++ extL).length + extR.length - 1),
              some (surrounding_box bxL bxR), none⟩ := by
          rw [List.getD_append_right _ _ _ _ (by
            simp only [List.length_append]
            omega)]
          have harith : items.length + (extL.length + (extR.length + 1)) - 1 -
              ((items ++ extL) ++ extR).length = 0 := by
            simp only [List.length_append]
            omega
          rw [harith]
          rfl
        rw [@leavesF_internal ⟨_, rt⟩ _ _ _ _ (congrArg Node.data hroot)
          (congrArg Node.left hroot) (congrArg Node.right hroot)]
        have hL := hleavesL (extR ++
          ((⟨some (items.length + extL.length - 1),
            some ((items ++ extL).length + extR.length - 1),
            some (surrounding_box bxL bxR), none⟩ : Node) :: ext2)) rt fl'
          (by omega)
        have hR := hleavesR
          ((⟨some (items.length + extL.length - 1),
            some ((items ++ extL).length + extR.length - 1),
            some (surrounding_box bxL bxR), none⟩ : Node) :: ext2) rt fl'
          (by
            simp only [List.length_append]
            omega)
        rw [show ((items ++ extL) ++ extR) ++
            ((⟨some (items.length + extL.length - 1),
              some ((items ++ extL).length + extR.length - 1),
              some (surrounding_box bxL bxR), none⟩ : Node) :: ext2) =
            (items ++ extL) ++ (extR ++
            ((⟨some (items.length + extL.length - 1),
              some ((items ++ extL).length + extR.length - 1),
              some (surrounding_box bxL bxR), none⟩ : Node) :: ext2))
          from by simp only [List.append_assoc]]
        rw [hL]
        rw [show (items ++ extL) ++ (extR ++
            ((⟨some (items.length + extL.length - 1),
              some ((items ++ extL).length + extR.length - 1),
              some (surrounding_box bxL bxR), none⟩ : Node) :: ext2)) =
            ((items ++ extL) ++ extR) ++
            ((⟨some (items.length + extL.length - 1),
              some ((items ++ extL).length + extR.length - 1),
              some (surrounding_box bxL bxR), none⟩ : Node) :: ext2)
          from by simp only [List.append_assoc]]
        rw [hR]
        simp only [List.filterMap_append]
        simp only [List.filterMap, Node.data]
        rw [List.append_nil]

/-- C10: `Tree::con` terminates on every non-empty slice — fuel equal to
the slice length is always enough, because the midpoint split of a slice of
length at least 3 yields two strictly shorter non-empty slices and slices
of length 1 or 2 recurse no further — while on the empty slice the
midpoint split at index 0 recurses on an empty slice again, so the
recursion never bottoms out regardless of fuel. -/
theorem claim_C10 :
    (∀ (ax : List Bool → Fin 3) (l : List Hittable) (items : List Node)
       (fuel : ℕ), l ≠ [] → l.length ≤ fuel →
       (Tree.conF fuel ax l items).isSome = true) ∧
    (∀ (ax : List Bool → Fin 3) (items : List Node) (fuel : ℕ),
       Tree.conF fuel ax [] items = none) := by
  constructor
  · intro ax l items fuel hne hlen
    obtain ⟨ext, heq, -⟩ := conF_spec fuel ax l items hne hlen
    rw [heq]
    rfl
  · intro ax items fuel
    exact conF_nil fuel ax items

/-- C10 witness: a concrete one-primitive build succeeds with fuel 1, and
the empty list never builds even with plenty of fuel. -/
theorem claim_C10_witness :
    (Tree.conF 1 (fun _ => 0)
      [Hittable.Sphere (Material.Lambertian 0) ⟨0, 0, 0⟩ 1] []).isSome =
      true ∧
    Tree.conF 5 (fun _ => 0) [] [] = none :=
  ⟨claim_C10.1 (fun _ => 0) _ [] 1 (by simp) (by simp),
   claim_C10.2 (fun _ => 0) [] 5⟩

/-- C3: every tree built from a non-empty primitive list satisfies the
structural invariant — each node is either a leaf whose box is its
primitive's bounding box and which has no children, or an internal node
whose box is the `surrounding_box` of its two (earlier) children's boxes —
and the multiset of primitives stored at the leaves is exactly the input
list. -/
theorem claim_C3 (ax : List Bool → Fin 3) (l : List Hittable) (fuel : ℕ)
    (t : Tree) (hne : l ≠ []) (hfuel : l.length ≤ fuel)
    (hbuild : Tree.build fuel ax l = some t) :
    (∀ i, i < t.items.length →
      nodeIsLeaf (t.items.getD i Node.junk) ∨
        nodeIsInternal t.items i (t.items.getD i Node.junk)) ∧
    (↑(t.items.filterMap Node.data) : Multiset Hittable) = ↑l := by
  obtain ⟨ext, heq, hpos, hperm, hbox, hinv, hleaves⟩ :=
    conF_spec fuel ax l [] hne hfuel
  rw [Tree.build, heq] at hbuild
  dsimp only at hbuild
  have ht := (Option.some.inj hbuild).symm
  subst ht
  have hempty : arenaInv ([] : List Node) := by
    intro i hi
    simp at hi
  constructor
  · exact hinv hempty
  · simp only [List.nil_append]
    exact Multiset.coe_eq_coe.mpr hperm

/-- C3 witness: the one-sphere build, whose single node is a leaf holding
the sphere. -/
theorem claim_C3_witness :
    (↑((Tree.mk [⟨none, none,
        some (Hittable.Sphere (Material.Lambertian 0) ⟨0, 0, 0⟩ 1).bounding_box,
        some (Hittable.Sphere (Material.Lambertian 0) ⟨0, 0, 0⟩ 1)⟩] 0).items.filterMap
        Node.data) : Multiset Hittable) =
      ↑[Hittable.Sphere (Material.Lambertian 0) ⟨0, 0, 0⟩ 1] := by
  refine (claim_C3 (fun _ => 0) _ 1 _ (by simp) (by simp) ?_).2
  simp only [Tree.build, Tree.conF, List.mergeSort_singleton, Tree.new_leaf,
    List.nil_append, List.length_nil]

/-- The found flag of the `Box`-arm side fold never falls back to false. -/
theorem hitSides_found_mono (sq : ℚ → ℚ) (uv : Point3 → ℚ × ℚ)
    (L : List Hittable) (r : Ray) (t_min : ℚ)
    (st : Bool × ℚ × HitRecord × HitRecord) (h : st.1 = true) :
    (Hittable.hitSides sq uv L r t_min st).1 = true := by
  induction L generalizing st with
  | nil => rw [Hittable.hitSides]; exact h
  | cons p ps ih =>
    rw [Hittable.hitSides]
    rcases hh : Hittable.hit sq uv p r t_min st.2.1 st.2.2.1 with ⟨fl, temp1⟩
    cases fl
    · dsimp only
      exact ih _ h
    · dsimp only
      exact ih _ rfl

/-- If the `Box`-arm side fold never finds a hit, the caller-facing output
record of its state is untouched. -/
theorem hitSides_frame (sq : ℚ → ℚ) (uv : Point3 → ℚ × ℚ)
    (L : List Hittable) (r : Ray) (t_min : ℚ)
    (st : Bool × ℚ × HitRecord × HitRecord)
    (h : (Hittable.hitSides sq uv L r t_min st).1 = false) :
    (Hittable.hitSides sq uv L r t_min st).2.2.2 = st.2.2.2 := by
  induction L generalizing st with
  | nil => rw [Hittable.hitSides]
  | cons p ps ih =>
    rw [Hittable.hitSides] at h ⊢
    rcases hh : Hittable.hit sq uv p r t_min st.2.1 st.2.2.1 with ⟨fl, temp1⟩
    rw [hh] at h
    cases fl
    · dsimp only at h ⊢
      exact ih _ h
    · dsimp only at h ⊢
      have hmono := hitSides_found_mono sq uv ps r t_min
        (true, temp1.t, temp1, temp1) rfl
      rw [hmono] at h
      simp at h

/-- C4 frame half, primitive level: a missed intersection leaves the
caller's record untouched, for every `Hittable` variant. -/
theorem hit_frame (sq : ℚ → ℚ) (uv : Point3 → ℚ × ℚ) (p : Hittable)
    (r : Ray) (t_min t_max : ℚ) (rec : HitRecord) (res : HitRecord)
    (h : Hittable.hit sq uv p r t_min t_max rec = (false, res)) :
    res = rec := by
  cases p with
  | Sphere mat center radius =>
    rw [Hittable.hit] at h
    dsimp only at h
    split at h
    · exact (Prod.mk.injEq _ _ _ _ ▸ h).2.symm
    · split at h
      · split at h
        · exact (Prod.mk.injEq _ _ _ _ ▸ h).2.symm
        · exact absurd (Prod.mk.injEq _ _ _ _ ▸ h).1 (by simp)
      · exact absurd (Prod.mk.injEq _ _ _ _ ▸ h).1 (by simp)
  | XYRect mat x0 x1 y0 y1 k =>
    rw [Hittable.hit] at h
    dsimp only at h
    split at h
    · exact (Prod.mk.injEq _ _ _ _ ▸ h).2.symm
    · split at h
      · exact (Prod.mk.injEq _ _ _ _ ▸ h).2.symm
      · exact absurd (Prod.mk.injEq _ _ _ _ ▸ h).1 (by simp)
  | XZRect mat x0 x1 z0 z1 k =>
    rw [Hittable.hit] at h
    dsimp only at h
    split at h
    · exact (Prod.mk.injEq _ _ _ _ ▸ h).2.symm
    · split at h
      · exact (Prod.mk.injEq _ _ _ _ ▸ h).2.symm
      · exact absurd (Prod.mk.injEq _ _ _ _ ▸ h).1 (by simp)
  | YZRect mat y0 y1 z0 z1 k =>
    rw [Hittable.hit] at h
    dsimp only at h
    split at h
    · exact (Prod.mk.injEq _ _ _ _ ▸ h).2.symm
    · split at h
      · exact (Prod.mk.injEq _ _ _ _ ▸ h).2.symm
      · exact absurd (Prod.mk.injEq _ _ _ _ ▸ h).1 (by simp)
  | Medium mat b density lnu =>
    rw [Hittable.hit] at h
    split at h
    · exact (Prod.mk.injEq _ _ _ _ ▸ h).2.symm
    · split at h
      · exact (Prod.mk.injEq _ _ _ _ ▸ h).2.symm
      · dsimp only at h
        split at h
        · exact (Prod.mk.injEq _ _ _ _ ▸ h).2.symm
        · split at h
          · exact (Prod.mk.injEq _ _ _ _ ▸ h).2.symm
          · exact absurd (Prod.mk.injEq _ _ _ _ ▸ h).1 (by simp)
  | Box mat minimum maximum =>
    rw [Hittable.hit] at h
    have h1 := (Prod.mk.injEq _ _ _ _ ▸ h).1
    have h2 := (Prod.mk.injEq _ _ _ _ ▸ h).2
    rw [← h2]
    exact hitSides_frame sq uv _ r t_min _ h1

/-- C4 frame half, tree level: a missed traversal leaves the caller's
record untouched. -/
theorem hitF_frame (sq : ℚ → ℚ) (uv : Point3 → ℚ × ℚ) (t : Tree)
    (fuel : ℕ) : ∀ (r : Ray) (t_min t_max : ℚ) (rec : HitRecord) (i : ℕ)
    (res : HitRecord),
    Tree.hitF sq uv t fuel r t_min t_max rec i = (false, res) → res = rec := by
  induction fuel with
  | zero =>
    intro r t_min t_max rec i res h
    rw [Tree.hitF] at h
    exact (Prod.mk.injEq _ _ _ _ ▸ h).2.symm
  | succ fuel ih =>
    intro r t_min t_max rec i res h
    rw [Tree.hitF] at h
    dsimp only at h
    split at h
    · exact (Prod.mk.injEq _ _ _ _ ▸ h).2.symm
    · split at h
      · split at h
        · exact hit_frame sq uv _ r t_min t_max rec res h
        · have hflag := (Prod.mk.injEq _ _ _ _ ▸ h).1
          have hout := (Prod.mk.injEq _ _ _ _ ▸ h).2
          clear h
          generalize hL : (hitChild (t.items.getD i Node.junk).left
            (fun left => Tree.hitF sq uv t fuel r t_min t_max rec left)
            rec) = resL at hflag hout
          generalize hR : (hitChild (t.items.getD i Node.junk).right
            (fun right => Tree.hitF sq uv t fuel r t_min
              (if resL.1 = true then resL.2.t else t_max) rec right)
            rec) = resR at hflag hout
          rw [Bool.or_eq_false_iff] at hflag
          obtain ⟨hfl, hfr⟩ := hflag
          rcases resL with ⟨flL, recL⟩
          rcases resR with ⟨flR, recR⟩
          have hfl2 : flL = false := hfl
          have hfr2 : flR = false := hfr
          subst hfl2
          subst hfr2
          have hrecL : recL = rec := by
            rcases hcl : (t.items.getD i Node.junk).left with _ | li
            · rw [hcl] at hL
              simp only [hitChild] at hL
              exact ((Prod.mk.injEq _ _ _ _ ▸ hL).2).symm
            · rw [hcl] at hL
              simp only [hitChild] at hL
              exact ih r t_min t_max rec li recL hL
          have hrecR : recR = rec := by
            rcases hcr : (t.items.getD i Node.junk).right with _ | ri
            · rw [hcr] at hR
              simp only [hitChild] at hR
              exact ((Prod.mk.injEq _ _ _ _ ▸ hR).2).symm
            · rw [hcr] at hR
              simp only [hitChild] at hR
              exact ih r t_min _ rec ri recR hR
          subst hrecL
          subst hrecR
          rw [← hout]
          simp
      · exact (Prod.mk.injEq _ _ _ _ ▸ h).2.symm

/-- Any property of hit records produced by the sides of a `Box` carries
over to the output record of the side fold. -/
theorem hitSides_Q (sq : ℚ → ℚ) (uv : Point3 → ℚ × ℚ) (r : Ray) (t_min : ℚ)
    (Q : HitRecord → Prop) :
    ∀ (L : List Hittable),
    (∀ p ∈ L, ∀ c temp ρ, Hittable.hit sq uv p r t_min c temp = (true, ρ) →
      Q ρ) →
    ∀ st : Bool × ℚ × HitRecord × HitRecord, (st.1 = true → Q st.2.2.2) →
    (Hittable.hitSides sq uv L r t_min st).1 = true →
    Q (Hittable.hitSides sq uv L r t_min st).2.2.2 := by
  intro L
  induction L with
  | nil =>
    intro _ st hst h
    rw [Hittable.hitSides] at h ⊢
    exact hst h
  | cons p ps ih =>
    intro hside st hst h
    rw [Hittable.hitSides] at h ⊢
    rcases hh : Hittable.hit sq uv p r t_min st.2.1 st.2.2.1 with ⟨fl, ρ⟩
    rw [hh] at h
    cases fl
    · dsimp only at h ⊢
      exact ih (fun q hq => hside q (List.mem_cons_of_mem _ hq)) _ hst h
    · dsimp only at h ⊢
      exact ih (fun q hq => hside q (List.mem_cons_of_mem _ hq)) _
        (fun _ => hside p (List.mem_cons_self _ _) st.2.1 st.2.2.1 ρ hh) h

/-- On a hit, every variant stores the intersection point `ray.at t` in `p`
and its own material in `mat`. -/
theorem hit_true_pt_mat (sq : ℚ → ℚ) (uv : Point3 → ℚ × ℚ) (p : Hittable)
    (r : Ray) : ∀ (t_min t_max : ℚ) (rec ρ : HitRecord),
    Hittable.hit sq uv p r t_min t_max rec = (true, ρ) →
    ρ.p = r.at ρ.t ∧ ρ.mat = p.matOf := by
  induction p with
  | Sphere mat center radius =>
    intro a b rec ρ h
    rw [Hittable.hit] at h
    dsimp only at h
    split at h
    · exact absurd (Prod.mk.injEq _ _ _ _ ▸ h).1 (by simp)
    · split at h
      · split at h
        · exact absurd (Prod.mk.injEq _ _ _ _ ▸ h).1 (by simp)
        · have hρ := (Prod.mk.injEq _ _ _ _ ▸ h).2
          rw [← hρ]
          simp [HitRecord.set_front_face_normal, Hittable.matOf]
      · have hρ := (Prod.mk.injEq _ _ _ _ ▸ h).2
        rw [← hρ]
        simp [HitRecord.set_front_face_normal, Hittable.matOf]
  | XYRect mat x0 x1 y0 y1 k =>
    intro a b rec ρ h
    rw [Hittable.hit] at h
    dsimp only at h
    split at h
    · exact absurd (Prod.mk.injEq _ _ _ _ ▸ h).1 (by simp)
    · split at h
      · exact absurd (Prod.mk.injEq _ _ _ _ ▸ h).1 (by simp)
      · have hρ := (Prod.mk.injEq _ _ _ _ ▸ h).2
        rw [← hρ]
        simp [HitRecord.set_front_face_normal, Hittable.matOf]
  | XZRect mat x0 x1 z0 z1 k =>
    intro a b rec ρ h
    rw [Hittable.hit] at h
    dsimp only at h
    split at h
    · exact absurd (Prod.mk.injEq _ _ _ _ ▸ h).1 (by simp)
    · split at h
      · exact absurd (Prod.mk.injEq _ _ _ _ ▸ h).1 (by simp)
      · have hρ := (Prod.mk.injEq _ _ _ _ ▸ h).2
        rw [← hρ]
        simp [HitRecord.set_front_face_normal, Hittable.matOf]
  | YZRect mat y0 y1 z0 z1 k =>
    intro a b rec ρ h
    rw [Hittable.hit] at h
    dsimp only at h
    split at h
    · exact absurd (Prod.mk.injEq _ _ _ _ ▸ h).1 (by simp)
    · split at h
      · exact absurd (Prod.mk.injEq _ _ _ _ ▸ h).1 (by simp)
      · have hρ := (Prod.mk.injEq _ _ _ _ ▸ h).2
        rw [← hρ]
        simp [HitRecord.set_front_face_normal, Hittable.matOf]
  | Medium mat b density lnu ihb =>
    intro a b' rec ρ h
    rw [Hittable.hit] at h
    split at h
    · exact absurd (Prod.mk.injEq _ _ _ _ ▸ h).1 (by simp)
    · split at h
      · exact absurd (Prod.mk.injEq _ _ _ _ ▸ h).1 (by simp)
      · dsimp only at h
        split at h
        · exact absurd (Prod.mk.injEq _ _ _ _ ▸ h).1 (by simp)
        · split at h
          · exact absurd (Prod.mk.injEq _ _ _ _ ▸ h).1 (by simp)
          · have hρ := (Prod.mk.injEq _ _ _ _ ▸ h).2
            rw [← hρ]
            simp [Hittable.matOf]
  | Box mat minimum maximum =>
    intro a b rec ρ h
    rw [Hittable.hit] at h
    have h1 := (Prod.mk.injEq _ _ _ _ ▸ h).1
    have h2 := (Prod.mk.injEq _ _ _ _ ▸ h).2
    rw [← h2]
    refine hitSides_Q sq uv r a
      (fun ρ' => ρ'.p = r.at ρ'.t ∧ ρ'.mat = (Hittable.Box mat minimum maximum).matOf)
      _ ?_ _ (by simp) h1
    intro q hq c temp ρ' hq'
    simp only [List.mem_cons, List.not_mem_nil, or_false] at hq
    rcases hq with hq | hq | hq | hq | hq | hq
    all_goals {
      subst hq
      rw [Hittable.hit] at hq'
      dsimp only at hq'
      split at hq'
      · exact absurd (Prod.mk.injEq _ _ _ _ ▸ hq').1 (by simp)
      · split at hq'
        · exact absurd (Prod.mk.injEq _ _ _ _ ▸ hq').1 (by simp)
        · have hρ := (Prod.mk.injEq _ _ _ _ ▸ hq').2
          rw [← hρ]
          simp [HitRecord.set_front_face_normal, Hittable.matOf]
    }

theorem dot_neg_right (v w : Vec3) : dot v (-w) = -(dot v w) := by
  simp only [dot, Vec3.neg_def]
  ring

/-- The front-face test orients the stored normal against the incoming
ray. -/
theorem set_front_face_dot (rec : HitRecord) (r : Ray) (n : Vec3) :
    dot r.direction (rec.set_front_face_normal r n).normal ≤ 0 := by
  unfold HitRecord.set_front_face_normal
  dsimp only
  by_cases hd : dot r.direction n < 0
  · rw [if_pos hd]
    exact le_of_lt hd
  · rw [if_neg hd]
    rw [dot_neg_right]
    linarith [not_lt.mp hd]

/-- On a hit, every variant except `Medium` stores a normal oriented
against the incoming ray. -/
theorem hit_true_orient (sq : ℚ → ℚ) (uv : Point3 → ℚ × ℚ) (p : Hittable)
    (r : Ray) (t_min t_max : ℚ) (rec ρ : HitRecord)
    (hp : p.isMedium = false)
    (h : Hittable.hit sq uv p r t_min t_max rec = (true, ρ)) :
    dot r.direction ρ.normal ≤ 0 := by
  cases p with
  | Sphere mat center radius =>
    rw [Hittable.hit] at h
    dsimp only at h
    split at h
    · exact absurd (Prod.mk.injEq _ _ _ _ ▸ h).1 (by simp)
    · split at h
      · split at h
        · exact absurd (Prod.mk.injEq _ _ _ _ ▸ h).1 (by simp)
        · have hρ := (Prod.mk.injEq _ _ _ _ ▸ h).2
          rw [← hρ]
          dsimp only
          exact set_front_face_dot _ r _
      · have hρ := (Prod.mk.injEq _ _ _ _ ▸ h).2
        rw [← hρ]
        dsimp only
        exact set_front_face_dot _ r _
  | XYRect mat x0 x1 y0 y1 k =>
    rw [Hittable.hit] at h
    dsimp only at h
    split at h
    · exact absurd (Prod.mk.injEq _ _ _ _ ▸ h).1 (by simp)
    · split at h
      · exact absurd (Prod.mk.injEq _ _ _ _ ▸ h).1 (by simp)
      · have hρ := (Prod.mk.injEq _ _ _ _ ▸ h).2
        rw [← hρ]
        exact set_front_face_dot _ r _
  | XZRect mat x0 x1 z0 z1 k =>
    rw [Hittable.hit] at h
    dsimp only at h
    split at h
    · exact absurd (Prod.mk.injEq _ _ _ _ ▸ h).1 (by simp)
    · split at h
      · exact absurd (Prod.mk.injEq _ _ _ _ ▸ h).1 (by simp)
      · have hρ := (Prod.mk.injEq _ _ _ _ ▸ h).2
        rw [← hρ]
        exact set_front_face_dot _ r _
  | YZRect mat y0 y1 z0 z1 k =>
    rw [Hittable.hit] at h
    dsimp only at h
    split at h
    · exact absurd (Prod.mk.injEq _ _ _ _ ▸ h).1 (by simp)
    · split at h
      · exact absurd (Prod.mk.injEq _ _ _ _ ▸ h).1 (by simp)
      · have hρ := (Prod.mk.injEq _ _ _ _ ▸ h).2
        rw [← hρ]
        exact set_front_face_dot _ r _
  | Medium mat b density lnu => exact absurd hp (by simp [Hittable.isMedium])
  | Box mat minimum maximum =>
    rw [Hittable.hit] at h
    have h1 := (Prod.mk.injEq _ _ _ _ ▸ h).1
    have h2 := (Prod.mk.injEq _ _ _ _ ▸ h).2
    rw [← h2]
    refine hitSides_Q sq uv r t_min
      (fun ρ' => dot r.direction ρ'.normal ≤ 0) _ ?_ _ (by simp) h1
    intro q hq c temp ρ' hq'
    simp only [List.mem_cons, List.not_mem_nil, or_false] at hq
    rcases hq with hq | hq | hq | hq | hq | hq
    all_goals {
      subst hq
      rw [Hittable.hit] at hq'
      dsimp only at hq'
      split at hq'
      · exact absurd (Prod.mk.injEq _ _ _ _ ▸ hq').1 (by simp)
      · split at hq'
        · exact absurd (Prod.mk.injEq _ _ _ _ ▸ hq').1 (by simp)
        · have hρ := (Prod.mk.injEq _ _ _ _ ▸ hq').2
          rw [← hρ]
          exact set_front_face_dot _ r _
    }

/-- On a hit, the `Medium` variant stores the placeholder normal (1,0,0),
marks the record front-facing without consulting the ray, and leaves the
record's `u` and `v` unchanged. -/
theorem hit_medium_true (sq : ℚ → ℚ) (uv : Point3 → ℚ × ℚ) (mat : Material)
    (b : Hittable) (density lnu : ℚ) (r : Ray) (t_min t_max : ℚ)
    (rec ρ : HitRecord)
    (h : Hittable.hit sq uv (Hittable.Medium mat b density lnu) r t_min t_max
      rec = (true, ρ)) :
    ρ.normal = ⟨1, 0, 0⟩ ∧ ρ.front_facing = true ∧ ρ.u = rec.u ∧
      ρ.v = rec.v := by
  rw [Hittable.hit] at h
  split at h
  · exact absurd (Prod.mk.injEq _ _ _ _ ▸ h).1 (by simp)
  · split at h
    · exact absurd (Prod.mk.injEq _ _ _ _ ▸ h).1 (by simp)
    · dsimp only at h
      split at h
      · exact absurd (Prod.mk.injEq _ _ _ _ ▸ h).1 (by simp)
      · split at h
        · exact absurd (Prod.mk.injEq _ _ _ _ ▸ h).1 (by simp)
        · have hρ := (Prod.mk.injEq _ _ _ _ ▸ h).2
          rw [← hρ]
          exact ⟨rfl, rfl, rfl, rfl⟩

/-- The side fold of the `Box` arm does not read the caller's record except
to return it untouched on a miss: runs differing only in that record agree
on the found flag, the closest distance, the working record, and — when
something was found — the output record. -/
theorem hitSides_indep (sq : ℚ → ℚ) (uv : Point3 → ℚ × ℚ) (r : Ray)
    (t_min : ℚ) : ∀ (L : List Hittable) (c : ℚ) (temp o o' : HitRecord),
    (Hittable.hitSides sq uv L r t_min (false, c, temp, o)).1 =
      (Hittable.hitSides sq uv L r t_min (false, c, temp, o')).1 ∧
    ((Hittable.hitSides sq uv L r t_min (false, c, temp, o)).1 = true →
      (Hittable.hitSides sq uv L r t_min (false, c, temp, o)).2.2.2 =
      (Hittable.hitSides sq uv L r t_min (false, c, temp, o')).2.2.2) := by
  intro L
  induction L with
  | nil =>
    intro c temp o o'
    rw [Hittable.hitSides, Hittable.hitSides]
    exact ⟨rfl, by intro h; exact absurd h (by simp)⟩
  | cons p ps ih =>
    intro c temp o o'
    rw [Hittable.hitSides, Hittable.hitSides]
    rcases hh : Hittable.hit sq uv p r t_min c temp with ⟨fl, ρ⟩
    cases fl
    · dsimp only
      exact ih c ρ o o'
    · dsimp only
      exact ⟨rfl, fun _ => rfl⟩

/-- On a hit, every variant except `Medium` populates the whole record
from the intersection: the returned pair does not depend on the record
passed in. -/
theorem hit_true_indep (sq : ℚ → ℚ) (uv : Point3 → ℚ × ℚ) (p : Hittable)
    (r : Ray) (t_min t_max : ℚ) (rec rec' : HitRecord) (ρ : HitRecord)
    (hp : p.isMedium = false)
    (h : Hittable.hit sq uv p r t_min t_max rec = (true, ρ)) :
    Hittable.hit sq uv p r t_min t_max rec' = (true, ρ) := by
  cases p with
  | Sphere mat center radius =>
    rw [Hittable.hit] at h ⊢
    dsimp only at h ⊢
    split_ifs at h ⊢ <;>
      first
        | exact h
        | exact absurd (Prod.mk.injEq _ _ _ _ ▸ h).1 (by simp)
  | XYRect mat x0 x1 y0 y1 k =>
    rw [Hittable.hit] at h ⊢
    dsimp only at h ⊢
    split_ifs at h ⊢ <;>
      first
        | exact h
        | exact absurd (Prod.mk.injEq _ _ _ _ ▸ h).1 (by simp)
  | XZRect mat x0 x1 z0 z1 k =>
    rw [Hittable.hit] at h ⊢
    dsimp only at h ⊢
    split_ifs at h ⊢ <;>
      first
        | exact h
        | exact absurd (Prod.mk.injEq _ _ _ _ ▸ h).1 (by simp)
  | YZRect mat y0 y1 z0 z1 k =>
    rw [Hittable.hit] at h ⊢
    dsimp only at h ⊢
    split_ifs at h ⊢ <;>
      first
        | exact h
        | exact absurd (Prod.mk.injEq _ _ _ _ ▸ h).1 (by simp)
  | Medium mat b density lnu => exact absurd hp (by simp [Hittable.isMedium])
  | Box mat minimum maximum =>
    rw [Hittable.hit] at h ⊢
    have h1 := (Prod.mk.injEq _ _ _ _ ▸ h).1
    have h2 := (Prod.mk.injEq _ _ _ _ ▸ h).2
    obtain ⟨hfl, hout⟩ := hitSides_indep sq uv r t_min _ t_max HitRecord.new
      rec rec'
    rw [Prod.mk.injEq]
    constructor
    · rw [← hfl]
      exact h1
    · rw [← hout h1, h2]

/-- On a traversal hit, the reported record stores the intersection point
`ray.at t`. -/
theorem hitF_true_pt (sq : ℚ → ℚ) (uv : Point3 → ℚ × ℚ) (t : Tree)
    (fuel : ℕ) : ∀ (r : Ray) (t_min t_max : ℚ) (rec : HitRecord) (i : ℕ)
    (ρ : HitRecord), Tree.hitF sq uv t fuel r t_min t_max rec i = (true, ρ) →
    ρ.p = r.at ρ.t := by
  induction fuel with
  | zero =>
    intro r t_min t_max rec i ρ h
    rw [Tree.hitF] at h
    exact absurd (Prod.mk.injEq _ _ _ _ ▸ h).1 (by simp)
  | succ fuel ih =>
    intro r t_min t_max rec i ρ h
    rw [Tree.hitF] at h
    dsimp only at h
    split at h
    · exact absurd (Prod.mk.injEq _ _ _ _ ▸ h).1 (by simp)
    · split at h
      · split at h
        · exact (hit_true_pt_mat sq uv _ r t_min t_max rec ρ h).1
        · have hflag := (Prod.mk.injEq _ _ _ _ ▸ h).1
          have hout := (Prod.mk.injEq _ _ _ _ ▸ h).2
          clear h
          generalize hL : (hitChild (t.items.getD i Node.junk).left
            (fun left => Tree.hitF sq uv t fuel r t_min t_max rec left)
            rec) = resL at hflag hout
          generalize hR : (hitChild (t.items.getD i Node.junk).right
            (fun right => Tree.hitF sq uv t fuel r t_min
              (if resL.1 = true then resL.2.t else t_max) rec right)
            rec) = resR at hflag hout
          rcases resL with ⟨flL, recL⟩
          rcases resR with ⟨flR, recR⟩
          have hfromL : flL = true → recL.p = r.at recL.t := by
            intro hflL
            subst hflL
            rcases hcl : (t.items.getD i Node.junk).left with _ | li
            · rw [hcl] at hL
              simp only [hitChild] at hL
              exact absurd (Prod.mk.injEq _ _ _ _ ▸ hL).1 (by simp)
            · rw [hcl] at hL
              simp only [hitChild] at hL
              exact ih r t_min t_max rec li recL hL
          have hfromR : flR = true → recR.p = r.at recR.t := by
            intro hflR
            subst hflR
            rcases hcr : (t.items.getD i Node.junk).right with _ | ri
            · rw [hcr] at hR
              simp only [hitChild] at hR
              exact absurd (Prod.mk.injEq _ _ _ _ ▸ hR).1 (by simp)
            · rw [hcr] at hR
              simp only [hitChild] at hR
              exact ih r t_min _ rec ri recR hR
          cases flL <;> cases flR <;> simp only [Bool.false_or, Bool.or_false,
            Bool.or_self, Bool.and_false, Bool.and_self, Bool.true_and,
            Bool.false_and, Bool.not_true, Bool.not_false, Bool.and_true,
            if_true, if_false] at hflag hout
          · exact absurd hflag (by simp)
          · rw [← hout]
            exact hfromR rfl
          · rw [← hout]
            exact hfromL rfl
          · rw [← hout]
            by_cases hlr : recL.t < recR.t
            · rw [if_pos hlr]
              exact hfromL rfl
            · rw [if_neg hlr]
              exact hfromR rfl
      · exact absurd (Prod.mk.injEq _ _ _ _ ▸ h).1 (by simp)

set_option maxHeartbeats 4000000 in
/-- Evaluation of the C4 `Medium` run: the medium reports a hit at
t = 3/2 with the placeholder normal (1,0,0), the record marked
front-facing, and the caller's `u`, `v` untouched. -/
theorem c4hit_eval :
    c4hit = (true, { c4rec with
                      t := 3 / 2
                      p := ⟨1 / 2, 1 / 2, 1 / 2⟩
                      normal := ⟨1, 0, 0⟩
                      front_facing := true
                      mat := Material.Lambertian 0 }) := by
  simp only [c4hit, c4sq, c4uv, c4ray, Hittable.hit.eq_def,
    Hittable.hitSides.eq_def]
  norm_num [c4rec, c4sq, c4uv, HitRecord.new, HitRecord.set_front_face_normal,
    Ray.at, dot, Vec3.lengthM, Vec3.length_squared, fMAX, Vec3.add_def,
    Vec3.smul_def]

/-- C4, counterexample to the original claim: on this `Medium` hit the
returned normal (1,0,0) points along the incoming ray (their dot product
is 1 > 0) yet the record is marked front-facing — so the stored normal is
not oriented by the front-face test against the incoming ray — and `u`,
`v` keep the caller's stale values 7 and 9 instead of being populated from
the reported intersection. -/
theorem claim_C4_counterexample :
    c4hit.1 = true ∧ 0 < dot c4ray.direction c4hit.2.normal ∧
    c4hit.2.front_facing = true ∧ c4hit.2.u = 7 ∧ c4hit.2.v = 9 := by
  rw [c4hit_eval]
  norm_num [c4ray, c4rec, HitRecord.new, dot]

/-- C4 (amended): on a miss both the primitive-level and the tree-level
`hit` leave the caller's record untouched; on a primitive hit the record's
`p` is the intersection point `ray.at t` and `mat` the primitive's own
material; every variant except `Medium` moreover orients the stored normal
against the incoming ray via the front-face test and populates the whole
record from the intersection alone (the record passed in is irrelevant);
the `Medium` variant instead stores the placeholder normal (1,0,0), marks
the record front-facing without consulting the ray, and leaves `u`, `v`
unchanged from the caller's record; on a tree-level hit the reported
record likewise stores the intersection point `ray.at t`. -/
theorem claim_C4 (sq : ℚ → ℚ) (uv : Point3 → ℚ × ℚ) (r : Ray)
    (t_min t_max : ℚ) (rec : HitRecord) :
    (∀ p res, Hittable.hit sq uv p r t_min t_max rec = (false, res) →
      res = rec) ∧
    (∀ tr fuel i res, Tree.hitF sq uv tr fuel r t_min t_max rec i =
      (false, res) → res = rec) ∧
    (∀ p ρ, Hittable.hit sq uv p r t_min t_max rec = (true, ρ) →
      ρ.p = r.at ρ.t ∧ ρ.mat = p.matOf) ∧
    (∀ p ρ, p.isMedium = false →
      Hittable.hit sq uv p r t_min t_max rec = (true, ρ) →
      dot r.direction ρ.normal ≤ 0 ∧
      ∀ rec', Hittable.hit sq uv p r t_min t_max rec' = (true, ρ)) ∧
    (∀ mat b density lnu ρ,
      Hittable.hit sq uv (Hittable.Medium mat b density lnu) r t_min t_max
        rec = (true, ρ) →
      ρ.normal = ⟨1, 0, 0⟩ ∧ ρ.front_facing = true ∧ ρ.u = rec.u ∧
        ρ.v = rec.v) ∧
    (∀ tr fuel i ρ, Tree.hitF sq uv tr fuel r t_min t_max rec i =
      (true, ρ) → ρ.p = r.at ρ.t) := by
  refine ⟨?_, ?_, ?_, ?_, ?_, ?_⟩
  · intro p res h
    exact hit_frame sq uv p r t_min t_max rec res h
  · intro tr fuel i res h
    exact hitF_frame sq uv tr fuel r t_min t_max rec i res h
  · intro p ρ h
    exact hit_true_pt_mat sq uv p r t_min t_max rec ρ h
  · intro p ρ hp h
    exact ⟨hit_true_orient sq uv p r t_min t_max rec ρ hp h,
      fun rec' => hit_true_indep sq uv p r t_min t_max rec rec' ρ hp h⟩
  · intro mat b density lnu ρ h
    exact hit_medium_true sq uv mat b density lnu r t_min t_max rec ρ h
  · intro tr fuel i ρ h
    exact hitF_true_pt sq uv tr fuel r t_min t_max rec i ρ h

set_option maxHeartbeats 4000000 in
/-- C4 witness: the amended contract at concrete inputs — a sphere miss
and a tree-level miss leave the record untouched; a sphere hit populates
the record from the intersection (point on the ray, the sphere's material,
normal oriented against the ray, input record irrelevant); the `Medium`
run keeps its placeholder normal, its unconditional front-facing mark and
the caller's stale `u`, `v`; the tree-level hit reports a point on the
ray. -/
theorem claim_C4_witness :
    (Hittable.hit c4sq c4uv c4sphMiss c4ray 0 10 c4rec).2 = c4rec ∧
    (Tree.hitF c4sq c4uv c4tree 1 c4ray3 0 10 c4rec 0).2 = c4rec ∧
    c4rho.p = Ray.at c4ray2 c4rho.t ∧
    c4rho.mat = Hittable.matOf c4sph ∧
    dot c4ray2.direction c4rho.normal ≤ 0 ∧
    Hittable.hit c4sq c4uv c4sph c4ray2 0 10 HitRecord.new = (true, c4rho) ∧
    c4hit.2.normal = ⟨1, 0, 0⟩ ∧
    c4hit.2.front_facing = true ∧
    c4hit.2.u = c4rec.u ∧
    c4hit.2.v = c4rec.v ∧
    (Tree.hitF c4sq c4uv c4tree 1 c4ray2 0 10 c4rec 0).2.p =
      Ray.at c4ray2 (Tree.hitF c4sq c4uv c4tree 1 c4ray2 0 10 c4rec 0).2.t := by
  have e1 : Hittable.hit c4sq c4uv c4sphMiss c4ray 0 10 c4rec =
      (false, c4rec) := by
    simp only [c4sq, c4uv, c4sphMiss, c4ray, Hittable.hit.eq_def]
    norm_num [dot, Vec3.length_squared, Vec3.sub_def]
  have e2 : Tree.hitF c4sq c4uv c4tree 1 c4ray3 0 10 c4rec 0 =
      (false, c4rec) := by
    simp only [Tree.hitF, c4tree]
    norm_num [AABB.hit, AABB.entry, AABB.exit, Vec3.nth, Node.junk, c4ray3]
  have e3 : Hittable.hit c4sq c4uv c4sph c4ray2 0 10 c4rec = (true, c4rho) := by
    simp only [c4sq, c4uv, c4sph, c4ray2, Hittable.hit.eq_def]
    norm_num [c4rec, c4rho, HitRecord.new, HitRecord.set_front_face_normal,
      Ray.at, dot, Vec3.length_squared, Vec3.sub_def, Vec3.sdiv_def,
      Vec3.add_def, Vec3.smul_def]
  have e4 : Tree.hitF c4sq c4uv c4tree 1 c4ray2 0 10 c4rec 0 =
      (true, c4rho) := by
    simp only [Tree.hitF, c4tree]
    norm_num [AABB.hit, AABB.entry, AABB.exit, Vec3.nth, Node.junk, c4ray2]
    exact e3
  have hMed : c4sph.isMedium = false := by
    simp [c4sph, Hittable.isMedium]
  have hc : c4hit = (true, c4hit.2) := by rw [c4hit_eval]
  have hm := (claim_C4 c4sq c4uv c4ray 0 10 c4rec).2.2.2.2.1
    (Material.Lambertian 0)
    (Hittable.Box (Material.Lambertian 0) ⟨0, 0, 0⟩ ⟨1, 1, 1⟩) 1 (-(1 / 2))
    c4hit.2 hc
  refine ⟨?_, ?_, ?_, ?_, ?_, ?_, ?_, ?_, ?_, ?_, ?_⟩
  · exact (claim_C4 c4sq c4uv c4ray 0 10 c4rec).1 c4sphMiss
      (Hittable.hit c4sq c4uv c4sphMiss c4ray 0 10 c4rec).2 (by rw [e1])
  · exact (claim_C4 c4sq c4uv c4ray3 0 10 c4rec).2.1 c4tree 1 0
      (Tree.hitF c4sq c4uv c4tree 1 c4ray3 0 10 c4rec 0).2 (by rw [e2])
  · exact ((claim_C4 c4sq c4uv c4ray2 0 10 c4rec).2.2.1 c4sph c4rho e3).1
  · exact ((claim_C4 c4sq c4uv c4ray2 0 10 c4rec).2.2.1 c4sph c4rho e3).2
  · exact ((claim_C4 c4sq c4uv c4ray2 0 10 c4rec).2.2.2.1 c4sph c4rho hMed
      e3).1
  · exact ((claim_C4 c4sq c4uv c4ray2 0 10 c4rec).2.2.2.1 c4sph c4rho hMed
      e3).2 HitRecord.new
  · exact hm.1
  · exact hm.2.1
  · exact hm.2.2.1
  · exact hm.2.2.2
  · exact (claim_C4 c4sq c4uv c4ray2 0 10 c4rec).2.2.2.2.2 c4tree 1 0
      (Tree.hitF c4sq c4uv c4tree 1 c4ray2 0 10 c4rec 0).2 (by rw [e4])

/-- The found flag of the linear scan never falls back to false. -/
theorem scanL_found_mono (sq : ℚ → ℚ) (uv : Point3 → ℚ × ℚ) (r : Ray)
    (t_min : ℚ) (rec0 : HitRecord) :
    ∀ (L : List Hittable) (st : Bool × ℚ × HitRecord), st.1 = true →
    (scanL sq uv r t_min rec0 L st).1 = true := by
  intro L
  induction L with
  | nil =>
    intro st h
    simpa only [scanL] using h
  | cons p ps ih =>
    intro st h
    simp only [scanL]
    rcases hh : Hittable.hit sq uv p r t_min st.2.1 rec0 with ⟨flh, ρ⟩
    cases flh
    · dsimp only
      exact ih _ h
    · dsimp only
      exact ih _ rfl

/-- A scan that ends without a find leaves its state exactly as given. -/
theorem scanL_miss (sq : ℚ → ℚ) (uv : Point3 → ℚ × ℚ) (r : Ray)
    (t_min : ℚ) (rec0 : HitRecord) :
    ∀ (L : List Hittable) (st : Bool × ℚ × HitRecord),
    (scanL sq uv r t_min rec0 L st).1 = false →
    scanL sq uv r t_min rec0 L st = st := by
  intro L
  induction L with
  | nil =>
    intro st _
    simp only [scanL]
  | cons p ps ih =>
    intro st h
    simp only [scanL] at h ⊢
    rcases hh : Hittable.hit sq uv p r t_min st.2.1 rec0 with ⟨flh, ρ⟩
    rw [hh] at h
    cases flh
    · dsimp only at h ⊢
      exact ih st h
    · dsimp only at h ⊢
      rw [scanL_found_mono sq uv r t_min rec0 ps (true, ρ.t, ρ) rfl] at h
      exact absurd h (by simp)

/-- The linear scan splits over list append. -/
theorem scanL_append (sq : ℚ → ℚ) (uv : Point3 → ℚ × ℚ) (r : Ray)
    (t_min : ℚ) (rec0 : HitRecord) :
    ∀ (L1 L2 : List Hittable) (st : Bool × ℚ × HitRecord),
    scanL sq uv r t_min rec0 (L1 ++ L2) st =
      scanL sq uv r t_min rec0 L2 (scanL sq uv r t_min rec0 L1 st) := by
  intro L1
  induction L1 with
  | nil =>
    intro L2 st
    simp only [List.nil_append, scanL]
  | cons p ps ih =>
    intro L2 st
    simp only [List.cons_append, scanL]
    rcases hh : Hittable.hit sq uv p r t_min st.2.1 rec0 with ⟨flh, ρ⟩
    cases flh
    · dsimp only
      exact ih L2 _
    · dsimp only
      exact ih L2 _

/-- The scan's window and, once something is found, its best record do not
depend on the initial flag and initial best record; with a fresh initial
state a scan that finds nothing changes nothing. -/
theorem scanL_shape (sq : ℚ → ℚ) (uv : Point3 → ℚ × ℚ) (r : Ray)
    (t_min : ℚ) (rec0 : HitRecord) :
    ∀ (L : List Hittable) (c : ℚ) (f : Bool) (b b1 : HitRecord),
    (scanL sq uv r t_min rec0 L (f, c, b)).2.1 =
      (scanL sq uv r t_min rec0 L (false, c, b1)).2.1 ∧
    (scanL sq uv r t_min rec0 L (f, c, b)).1 =
      (f || (scanL sq uv r t_min rec0 L (false, c, b1)).1) ∧
    ((scanL sq uv r t_min rec0 L (false, c, b1)).1 = true →
      (scanL sq uv r t_min rec0 L (f, c, b)).2.2 =
        (scanL sq uv r t_min rec0 L (false, c, b1)).2.2) ∧
    ((scanL sq uv r t_min rec0 L (false, c, b1)).1 = false →
      scanL sq uv r t_min rec0 L (f, c, b) = (f, c, b)) := by
  intro L
  induction L with
  | nil =>
    intro c f b b1
    exact ⟨rfl, by simp [scanL], fun h => absurd h (by simp [scanL]),
      fun _ => rfl⟩
  | cons p ps ih =>
    intro c f b b1
    simp only [scanL]
    rcases hh : Hittable.hit sq uv p r t_min c rec0 with ⟨flh, ρ⟩
    cases flh
    · dsimp only
      exact ih c f b b1
    · refine ⟨rfl, ?_, fun _ => rfl, ?_⟩
      · dsimp only
        rw [scanL_found_mono sq uv r t_min rec0 ps (true, ρ.t, ρ) rfl]
        simp
      · dsimp only
        intro h
        rw [scanL_found_mono sq uv r t_min rec0 ps (true, ρ.t, ρ) rfl] at h
        exact absurd h (by simp)

/-- Once the scan has found something, its window equals the best record's
distance. -/
theorem scanL_inv (sq : ℚ → ℚ) (uv : Point3 → ℚ × ℚ) (r : Ray)
    (t_min : ℚ) (rec0 : HitRecord) :
    ∀ (L : List Hittable) (st : Bool × ℚ × HitRecord),
    (st.1 = true → st.2.1 = st.2.2.t) →
    (scanL sq uv r t_min rec0 L st).1 = true →
    (scanL sq uv r t_min rec0 L st).2.1 =
      (scanL sq uv r t_min rec0 L st).2.2.t := by
  intro L
  induction L with
  | nil =>
    intro st hst h
    simp only [scanL] at h ⊢
    exact hst h
  | cons p ps ih =>
    intro st hst h
    simp only [scanL] at h ⊢
    rcases hh : Hittable.hit sq uv p r t_min st.2.1 rec0 with ⟨flh, ρ⟩
    rw [hh] at h
    cases flh
    · dsimp only at h ⊢
      exact ih st hst h
    · dsimp only at h ⊢
      exact ih _ (fun _ => rfl) h

/-- An `XYRect` hit's distance never exceeds the window top. -/
theorem hit_xy_le (sq : ℚ → ℚ) (uv : Point3 → ℚ × ℚ) (mat : Material)
    (x0 x1 y0 y1 k : ℚ) (r : Ray) (t_min t_max : ℚ) (rec ρ : HitRecord)
    (h : Hittable.hit sq uv (Hittable.XYRect mat x0 x1 y0 y1 k) r t_min t_max
      rec = (true, ρ)) : ρ.t ≤ t_max := by
  rw [Hittable.hit] at h
  dsimp only at h
  split at h
  · exact absurd (Prod.mk.injEq _ _ _ _ ▸ h).1 (by simp)
  · split at h
    · exact absurd (Prod.mk.injEq _ _ _ _ ▸ h).1 (by simp)
    · rename_i hg1 hg2
      have ht := (Prod.mk.injEq _ _ _ _ ▸ h).2
      rw [← ht]
      simp only [HitRecord.set_front_face_normal]
      push_neg at hg1
      exact hg1.2

/-- An `XZRect` hit's distance never exceeds the window top. -/
theorem hit_xz_le (sq : ℚ → ℚ) (uv : Point3 → ℚ × ℚ) (mat : Material)
    (x0 x1 z0 z1 k : ℚ) (r : Ray) (t_min t_max : ℚ) (rec ρ : HitRecord)
    (h : Hittable.hit sq uv (Hittable.XZRect mat x0 x1 z0 z1 k) r t_min t_max
      rec = (true, ρ)) : ρ.t ≤ t_max := by
  rw [Hittable.hit] at h
  dsimp only at h
  split at h
  · exact absurd (Prod.mk.injEq _ _ _ _ ▸ h).1 (by simp)
  · split at h
    · exact absurd (Prod.mk.injEq _ _ _ _ ▸ h).1 (by simp)
    · rename_i hg1 hg2
      have ht := (Prod.mk.injEq _ _ _ _ ▸ h).2
      rw [← ht]
      simp only [HitRecord.set_front_face_normal]
      push_neg at hg1
      exact hg1.2

/-- A `YZRect` hit's distance never exceeds the window top. -/
theorem hit_yz_le (sq : ℚ → ℚ) (uv : Point3 → ℚ × ℚ) (mat : Material)
    (y0 y1 z0 z1 k : ℚ) (r : Ray) (t_min t_max : ℚ) (rec ρ : HitRecord)
    (h : Hittable.hit sq uv (Hittable.YZRect mat y0 y1 z0 z1 k) r t_min t_max
      rec = (true, ρ)) : ρ.t ≤ t_max := by
  rw [Hittable.hit] at h
  dsimp only at h
  split at h
  · exact absurd (Prod.mk.injEq _ _ _ _ ▸ h).1 (by simp)
  · split at h
    · exact absurd (Prod.mk.injEq _ _ _ _ ▸ h).1 (by simp)
    · rename_i hg1 hg2
      have ht := (Prod.mk.injEq _ _ _ _ ▸ h).2
      rw [← ht]
      simp only [HitRecord.set_front_face_normal]
      push_neg at hg1
      exact hg1.2

/-- If each side's hit distance stays below its window top, the side fold's
output distance stays below any bound on the initial window. -/
theorem hitSides_ub (sq : ℚ → ℚ) (uv : Point3 → ℚ × ℚ) (r : Ray)
    (t_min B : ℚ) :
    ∀ (L : List Hittable),
    (∀ p ∈ L, ∀ c temp ρ, Hittable.hit sq uv p r t_min c temp = (true, ρ) →
      ρ.t ≤ c) →
    ∀ st : Bool × ℚ × HitRecord × HitRecord,
    st.2.1 ≤ B → (st.1 = true → st.2.2.2.t ≤ B) →
    (Hittable.hitSides sq uv L r t_min st).1 = true →
    (Hittable.hitSides sq uv L r t_min st).2.2.2.t ≤ B := by
  intro L
  induction L with
  | nil =>
    intro _ st _ hout h
    rw [Hittable.hitSides] at h ⊢
    exact hout h
  | cons p ps ih =>
    intro hside st hc hout h
    rw [Hittable.hitSides] at h ⊢
    rcases hh : Hittable.hit sq uv p r t_min st.2.1 st.2.2.1 with ⟨flh, ρ⟩
    rw [hh] at h
    cases flh
    · dsimp only at h ⊢
      exact ih (fun q hq => hside q (List.mem_cons_of_mem _ hq)) _ hc hout h
    · dsimp only at h ⊢
      have hρ : ρ.t ≤ st.2.1 := hside p (List.mem_cons_self _ _) st.2.1
        st.2.2.1 ρ hh
      exact ih (fun q hq => hside q (List.mem_cons_of_mem _ hq)) _
        (le_trans hρ hc) (fun _ => le_trans hρ hc) h

/-- On a hit with a direction of positive measured length, every variant's
reported distance stays below the window top. -/
theorem hit_true_le (sq : ℚ → ℚ) (uv : Point3 → ℚ × ℚ) (p : Hittable)
    (r : Ray) (t_min t_max : ℚ) (rec ρ : HitRecord)
    (hlen : 0 < sq r.direction.length_squared)
    (h : Hittable.hit sq uv p r t_min t_max rec = (true, ρ)) :
    ρ.t ≤ t_max := by
  cases p with
  | XYRect mat x0 x1 y0 y1 k =>
    exact hit_xy_le sq uv mat x0 x1 y0 y1 k r t_min t_max rec ρ h
  | XZRect mat x0 x1 z0 z1 k =>
    exact hit_xz_le sq uv mat x0 x1 z0 z1 k r t_min t_max rec ρ h
  | YZRect mat y0 y1 z0 z1 k =>
    exact hit_yz_le sq uv mat y0 y1 z0 z1 k r t_min t_max rec ρ h
  | Sphere mat center radius =>
    rw [Hittable.hit] at h
    dsimp only at h
    split at h
    · exact absurd (Prod.mk.injEq _ _ _ _ ▸ h).1 (by simp)
    · split at h
      · split at h
        · exact absurd (Prod.mk.injEq _ _ _ _ ▸ h).1 (by simp)
        · rename_i hg1 hg2
          have ht := (Prod.mk.injEq _ _ _ _ ▸ h).2
          rw [← ht]
          simp only [HitRecord.set_front_face_normal]
          push_neg at hg2
          exact hg2.2
      · rename_i hg0 hg1
        have ht := (Prod.mk.injEq _ _ _ _ ▸ h).2
        rw [← ht]
        simp only [HitRecord.set_front_face_normal]
        push_neg at hg1
        exact hg1.2
  | Medium mat b density lnu =>
    rw [Hittable.hit] at h
    rcases hI1 : Hittable.hit sq uv b r (-fMAX) fMAX HitRecord.new
      with ⟨f1, ra⟩
    rw [hI1] at h
    cases f1
    · exact absurd (Prod.mk.injEq _ _ _ _ ▸ h).1 (by simp)
    · dsimp only at h
      rcases hI2 : Hittable.hit sq uv b r (ra.t + 1 / 10000) fMAX
        HitRecord.new with ⟨f2, rb⟩
      rw [hI2] at h
      cases f2
      · exact absurd (Prod.mk.injEq _ _ _ _ ▸ h).1 (by simp)
      · dsimp only at h
        split at h
        · exact absurd (Prod.mk.injEq _ _ _ _ ▸ h).1 (by simp)
        · split at h
          · exact absurd (Prod.mk.injEq _ _ _ _ ▸ h).1 (by simp)
          · rename_i hg1 hg2
            have ht := (Prod.mk.injEq _ _ _ _ ▸ h).2
            rw [← ht]
            dsimp only
            have hlen' : 0 < Vec3.lengthM sq r.direction := by
              simpa [Vec3.lengthM] using hlen
            push_neg at hg2
            have h1 : lnu / -density / Vec3.lengthM sq r.direction ≤
                min rb.t t_max - max (max ra.t t_min) 0 :=
              (div_le_iff₀ hlen').mpr hg2
            have h2 : min rb.t t_max ≤ t_max := min_le_right _ _
            linarith
  | Box mat minimum maximum =>
    rw [Hittable.hit] at h
    have h1 := (Prod.mk.injEq _ _ _ _ ▸ h).1
    have h2 := (Prod.mk.injEq _ _ _ _ ▸ h).2
    rw [← h2]
    refine hitSides_ub sq uv r t_min t_max _ ?_ _ (le_refl _) (by simp) h1
    intro q hq c temp ρ' hq'
    simp only [List.mem_cons, List.not_mem_nil, or_false] at hq
    rcases hq with hq | hq | hq | hq | hq | hq
    · subst hq
      exact hit_yz_le sq uv mat _ _ _ _ _ r t_min c temp ρ' hq'
    · subst hq
      exact hit_xz_le sq uv mat _ _ _ _ _ r t_min c temp ρ' hq'
    · subst hq
      exact hit_xy_le sq uv mat _ _ _ _ _ r t_min c temp ρ' hq'
    · subst hq
      exact hit_yz_le sq uv mat _ _ _ _ _ r t_min c temp ρ' hq'
    · subst hq
      exact hit_xz_le sq uv mat _ _ _ _ _ r t_min c temp ρ' hq'
    · subst hq
      exact hit_xy_le sq uv mat _ _ _ _ _ r t_min c temp ρ' hq'

/-- On a traversal hit with a direction of positive measured length, the
reported distance stays below the window top. -/
theorem hitF_true_le (sq : ℚ → ℚ) (uv : Point3 → ℚ × ℚ) (t : Tree)
    (r : Ray) (hlen : 0 < sq r.direction.length_squared) :
    ∀ (fuel : ℕ) (t_min t_max : ℚ) (rec : HitRecord) (i : ℕ)
    (ρ : HitRecord), Tree.hitF sq uv t fuel r t_min t_max rec i = (true, ρ) →
    ρ.t ≤ t_max := by
  intro fuel
  induction fuel with
  | zero =>
    intro t_min t_max rec i ρ h
    rw [Tree.hitF] at h
    exact absurd (Prod.mk.injEq _ _ _ _ ▸ h).1 (by simp)
  | succ fuel ih =>
    intro t_min t_max rec i ρ h
    rw [Tree.hitF] at h
    dsimp only at h
    split at h
    · exact absurd (Prod.mk.injEq _ _ _ _ ▸ h).1 (by simp)
    · split at h
      · split at h
        · exact hit_true_le sq uv _ r t_min t_max rec ρ hlen h
        · have hflag := (Prod.mk.injEq _ _ _ _ ▸ h).1
          have hout := (Prod.mk.injEq _ _ _ _ ▸ h).2
          clear h
          generalize hL : (hitChild (t.items.getD i Node.junk).left
            (fun left => Tree.hitF sq uv t fuel r t_min t_max rec left)
            rec) = resL at hflag hout
          generalize hR : (hitChild (t.items.getD i Node.junk).right
            (fun right => Tree.hitF sq uv t fuel r t_min
              (if resL.1 = true then resL.2.t else t_max) rec right)
            rec) = resR at hflag hout
          rcases resL with ⟨flL, recL⟩
          rcases resR with ⟨flR, recR⟩
          have hfromL : flL = true → recL.t ≤ t_max := by
            intro hflL
            subst hflL
            rcases hcl : (t.items.getD i Node.junk).left with _ | li
            · rw [hcl] at hL
              simp only [hitChild] at hL
              exact absurd (Prod.mk.injEq _ _ _ _ ▸ hL).1 (by simp)
            · rw [hcl] at hL
              simp only [hitChild] at hL
              exact ih t_min t_max rec li recL hL
          have hfromR : flR = true →
              recR.t ≤ (if flL = true then recL.t else t_max) := by
            intro hflR
            subst hflR
            rcases hcr : (t.items.getD i Node.junk).right with _ | ri
            · rw [hcr] at hR
              simp only [hitChild] at hR
              exact absurd (Prod.mk.injEq _ _ _ _ ▸ hR).1 (by simp)
            · rw [hcr] at hR
              simp only [hitChild] at hR
              exact ih t_min _ rec ri recR hR
          cases flL <;> cases flR <;> simp only [Bool.false_or, Bool.or_false,
            Bool.or_self, Bool.and_false, Bool.and_self, Bool.true_and,
            Bool.false_and, Bool.not_true, Bool.not_false, Bool.and_true,
            if_true, if_false] at hflag hout hfromR
          · exact absurd hflag (by simp)
          · rw [← hout]
            exact hfromR trivial
          · rw [← hout]
            exact hfromL rfl
          · rw [← hout]
            by_cases hlr : recL.t < recR.t
            · rw [if_pos hlr]
              exact hfromL rfl
            · rw [if_neg hlr]
              exact le_trans (hfromR trivial) (hfromL rfl)
      · exact absurd (Prod.mk.injEq _ _ _ _ ▸ h).1 (by simp)

/-- The BVH traversal against the linear scan over the leaves below the
same node: under the no-pruning hypothesis `H` the found flags agree and,
on a find, so do the reported distances. -/
theorem tree_scan (sq : ℚ → ℚ) (uv : Point3 → ℚ × ℚ) (t : Tree) (r : Ray)
    (t_min : ℚ) (rec : HitRecord)
    (hlen : 0 < sq r.direction.length_squared)
    (hinv : arenaInv t.items)
    (H : ∀ (i flv : ℕ) (b : ℚ),
      (scanL sq uv r t_min rec (Tree.leavesF t flv i) (false, b, rec)).1 =
        true →
      ∃ abox, (t.items.getD i Node.junk).aabb = some abox ∧
        AABB.hit abox r t_min b = true) :
    ∀ (fl i : ℕ), i < t.items.length → ∀ b : ℚ,
    (Tree.hitF sq uv t fl r t_min b rec i).1 =
      (scanL sq uv r t_min rec (Tree.leavesF t fl i) (false, b, rec)).1 ∧
    ((scanL sq uv r t_min rec (Tree.leavesF t fl i) (false, b, rec)).1 =
        true →
      (Tree.hitF sq uv t fl r t_min b rec i).2.t =
        (scanL sq uv r t_min rec (Tree.leavesF t fl i)
          (false, b, rec)).2.2.t) := by
  intro fl
  induction fl with
  | zero =>
    intro i hi b
    refine ⟨by simp [Tree.hitF, Tree.leavesF, scanL], ?_⟩
    intro hcon
    simp [Tree.leavesF, scanL] at hcon
  | succ fl ih =>
    intro i hi b
    rcases hinv i hi with hleaf | hint
    · obtain ⟨p, hdata, haabb, hleft, hright⟩ := hleaf
      rw [leavesF_data_some (Nat.succ_pos fl) hdata]
      rw [Tree.hitF]
      dsimp only
      rw [haabb]
      dsimp only
      by_cases hbox : AABB.hit p.bounding_box r t_min b = true
      · rw [if_pos hbox, hdata]
        dsimp only
        simp only [scanL]
        rcases hp : Hittable.hit sq uv p r t_min b rec with ⟨flp, ρp⟩
        cases flp
        · dsimp only [scanL]
          exact ⟨rfl, fun hcon => absurd hcon (by simp)⟩
        · dsimp only [scanL]
          exact ⟨rfl, fun _ => rfl⟩
      · rw [if_neg hbox]
        have hs : (scanL sq uv r t_min rec [p] (false, b, rec)).1 = false := by
          by_contra hcon
          rw [Bool.not_eq_false] at hcon
          have hH := H i (fl + 1) b
          rw [leavesF_data_some (Nat.succ_pos fl) hdata] at hH
          obtain ⟨abox, ha, hah⟩ := hH hcon
          rw [haabb] at ha
          rw [← Option.some.inj ha] at hah
          exact hbox hah
        exact ⟨by rw [hs], fun hcon => absurd (hs.symm.trans hcon) (by simp)⟩
    · obtain ⟨li, ri, lb, rb, hdata, hleft, hright, hli, hri, hlb, hrb,
        haabb⟩ := hint
      rw [leavesF_internal hdata hleft hright]
      rw [Tree.hitF]
      dsimp only
      rw [haabb]
      dsimp only
      by_cases hbox : AABB.hit (surrounding_box lb rb) r t_min b = true
      · rw [if_pos hbox, hdata]
        dsimp only
        simp only [hleft, hright, hitChild]
        rw [scanL_append]
        rcases hL : Tree.hitF sq uv t fl r t_min b rec li with ⟨flL, recL⟩
        have IHL := ih li (lt_trans hli hi) b
        rw [hL] at IHL
        cases flL
        · simp only [Bool.false_or, Bool.false_and, Bool.not_false,
            Bool.true_and, Bool.false_eq_true, if_false]
          have hmissA : scanL sq uv r t_min rec (Tree.leavesF t fl li)
              (false, b, rec) = (false, b, rec) := by
            apply scanL_miss
            rw [← IHL.1]
          rw [hmissA]
          rcases hRW : Tree.hitF sq uv t fl r t_min b rec ri with ⟨flR, recR⟩
          have IHR := ih ri (lt_trans hri hi) b
          rw [hRW] at IHR
          cases flR
          · refine ⟨IHR.1, ?_⟩
            intro hcon
            rw [← IHR.1] at hcon
            exact absurd hcon (by simp)
          · refine ⟨IHR.1, ?_⟩
            intro hcon
            simp only [Bool.true_eq_false, Bool.false_eq_true, if_true,
              if_false, eq_self_iff_true]
            exact IHR.2 hcon
        · simp only [Bool.true_or, Bool.true_and, Bool.not_true,
            Bool.false_and, Bool.false_eq_true, if_false, if_true,
            eq_self_iff_true]
          have hfA : (scanL sq uv r t_min rec (Tree.leavesF t fl li)
              (false, b, rec)).1 = true := by
            rw [← IHL.1]
          have hcA := scanL_inv sq uv r t_min rec (Tree.leavesF t fl li)
            (false, b, rec) (fun hcon => absurd hcon (by simp)) hfA
          have htA := IHL.2 hfA
          rcases hA : scanL sq uv r t_min rec (Tree.leavesF t fl li)
            (false, b, rec) with ⟨fA, cA, bA⟩
          rw [hA] at hfA hcA htA
          dsimp only at hfA hcA htA
          subst hfA
          rw [hcA]
          rcases hRW : Tree.hitF sq uv t fl r t_min recL.t rec ri
            with ⟨flR, recR⟩
          have IHR := ih ri (lt_trans hri hi) recL.t
          rw [hRW] at IHR
          rw [htA] at IHR
          obtain ⟨hsh1, hsh2, hsh3, hsh4⟩ := scanL_shape sq uv r t_min rec
            (Tree.leavesF t fl ri) bA.t true bA rec
          cases flR
          · have hfB : (scanL sq uv r t_min rec (Tree.leavesF t fl ri)
                (false, bA.t, rec)).1 = false := by
              rw [← IHR.1]
            refine ⟨?_, ?_⟩
            · simp [hsh2, hfB]
            · intro hcon
              rw [hsh4 hfB]
              dsimp only
              simp only [Bool.not_false, Bool.and_true, if_true,
                eq_self_iff_true]
              exact htA
          · have hfB : (scanL sq uv r t_min rec (Tree.leavesF t fl ri)
                (false, bA.t, rec)).1 = true := by
              rw [← IHR.1]
            refine ⟨?_, ?_⟩
            · simp [hsh2, hfB]
            · intro hcon
              rw [hsh3 hfB]
              have hle : recR.t ≤ recL.t :=
                hitF_true_le sq uv t r hlen fl t_min recL.t rec ri recR hRW
              simp only [Bool.not_true, Bool.and_false, Bool.false_eq_true,
                if_false]
              rw [if_neg (not_lt.mpr hle)]
              exact IHR.2 hfB
      · rw [if_neg hbox]
        have hs : (scanL sq uv r t_min rec
            (Tree.leavesF t fl li ++ Tree.leavesF t fl ri)
            (false, b, rec)).1 = false := by
          by_contra hcon
          rw [Bool.not_eq_false] at hcon
          have hH := H i (fl + 1) b
          rw [leavesF_internal hdata hleft hright] at hH
          obtain ⟨abox, ha, hah⟩ := hH hcon
          rw [haabb] at ha
          rw [← Option.some.inj ha] at hah
          exact hbox hah
        exact ⟨by rw [hs], fun hcon => absurd (hs.symm.trans hcon) (by simp)⟩

/-- C1 (amended): for a tree built from a non-empty list with enough fuel,
a ray whose direction has positive measured length, and a window on which
no node whose subtree contains a scan hit is pruned by its bounding-box
test (hypothesis `H`), the BVH traversal and the brute-force linear scan
over the tree's leaf list — a permutation of the input list — agree on
whether something is hit and, when something is, on the reported
distance `t`. -/
theorem claim_C1 (sq : ℚ → ℚ) (uv : Point3 → ℚ × ℚ) (ax : List Bool → Fin 3)
    (l : List Hittable) (fuel : ℕ) (t : Tree) (r : Ray) (t_min t_max : ℚ)
    (rec : HitRecord) (fl : ℕ)
    (hne : l ≠ []) (hfuel : l.length ≤ fuel)
    (hbuild : Tree.build fuel ax l = some t)
    (hfl : t.root < fl)
    (hlen : 0 < sq r.direction.length_squared)
    (H : ∀ (i flv : ℕ) (b : ℚ),
      (scanL sq uv r t_min rec (Tree.leavesF t flv i) (false, b, rec)).1 =
        true →
      ∃ abox, (t.items.getD i Node.junk).aabb = some abox ∧
        AABB.hit abox r t_min b = true) :
    (Tree.leavesF t fl t.root).Perm l ∧
    (Tree.hitF sq uv t fl r t_min t_max rec t.root).1 =
      (linearHit sq uv (Tree.leavesF t fl t.root) r t_min t_max rec).1 ∧
    ((linearHit sq uv (Tree.leavesF t fl t.root) r t_min t_max rec).1 =
        true →
      (Tree.hitF sq uv t fl r t_min t_max rec t.root).2.t =
        (linearHit sq uv (Tree.leavesF t fl t.root) r t_min t_max
          rec).2.t) := by
  obtain ⟨ext, heq, hpos, hperm, hbx, hinv, hleaves⟩ :=
    conF_spec fuel ax l [] hne hfuel
  rw [Tree.build, heq] at hbuild
  dsimp only at hbuild
  have ht := (Option.some.inj hbuild).symm
  subst ht
  have hempty : arenaInv ([] : List Node) := by
    intro i hi
    simp at hi
  dsimp only at hfl ⊢
  have hflN : List.length ([] : List Node) + ext.length ≤ fl := by
    simp only [List.length_nil] at hfl ⊢
    omega
  have hlv := hleaves [] (List.length ([] : List Node) + ext.length - 1) fl
    hflN
  rw [List.append_nil] at hlv
  have hroot : List.length ([] : List Node) + ext.length - 1 <
      (([] : List Node) ++ ext).length := by
    simp only [List.length_nil, List.nil_append]
    omega
  have hts := tree_scan sq uv _ r t_min rec hlen (hinv hempty) H fl _ hroot
    t_max
  refine ⟨?_, ?_, ?_⟩
  · rw [hlv]
    exact hperm
  · simp only [linearHit]
    exact hts.1
  · intro hcon
    simp only [linearHit] at hcon ⊢
    rw [if_pos hcon]
    exact hts.2 hcon

set_option maxHeartbeats 1000000 in
/-- C1, counterexample to the original claim: on the tree built from the
single rectangle `c1rect`, the traversal reports no hit in the window
[1, 10] although the rectangle itself — and hence the brute-force scan —
reports a hit at t = 1: the root's box test prunes the subtree because
the ray exits the box's x-slab exactly at the window's lower end (the
slab test fails on `t_max <= t_min` with equality), while the rectangle
accepts the boundary crossing. -/
theorem claim_C1_counterexample :
    Tree.build 1 (fun _ => 0) [c1rect] = some c1tree ∧
    (Tree.hitF (fun _ => 1) (fun _ => (0, 0)) c1tree 1 c1ray 1 10
        HitRecord.new c1tree.root).1 = false ∧
    (linearHit (fun _ => 1) (fun _ => (0, 0)) [c1rect] c1ray 1 10
        HitRecord.new).1 = true ∧
    (linearHit (fun _ => 1) (fun _ => (0, 0)) [c1rect] c1ray 1 10
        HitRecord.new).2.t = 1 := by
  have hev : Hittable.hit (fun _ => 1) (fun _ => (0, 0)) c1rect c1ray 1 10
      HitRecord.new =
      (true, ⟨⟨1, 1 / 2, 1⟩, ⟨0, 0, -1⟩, Material.Lambertian 0, 1, 1, 1 / 2,
        false⟩) := by
    simp only [c1rect, c1ray, Hittable.hit.eq_def]
    norm_num [HitRecord.new, HitRecord.set_front_face_normal, Ray.at, dot,
      Vec3.add_def, Vec3.smul_def, Vec3.neg_def]
  refine ⟨?_, ?_, ?_, ?_⟩
  · simp only [Tree.build, Tree.conF, List.mergeSort_singleton, Tree.new_leaf]
    norm_num [c1tree, c1rect, Hittable.bounding_box]
  · simp only [c1tree, Tree.hitF]
    norm_num [AABB.hit, AABB.entry, AABB.exit, Vec3.nth, Node.junk, c1ray]
  · simp only [linearHit, scanL]
    rw [hev]
  · simp only [linearHit, scanL]
    rw [hev]
    simp

set_option maxHeartbeats 1000000 in
/-- C1 witness: on the one-sphere scene missed by the ray — so no box test
ever prunes a scan hit and the no-pruning hypothesis holds vacuously — the
traversal and the linear scan over the leaf list (a permutation of the
input) agree. -/
theorem claim_C1_witness :
    (Tree.leavesF c1wtree 1 c1wtree.root).Perm [c1wsph] ∧
    (Tree.hitF (fun _ => 1) (fun _ => (0, 0)) c1wtree 1 c1wray (1 / 1000)
        100 HitRecord.new c1wtree.root).1 =
      (linearHit (fun _ => 1) (fun _ => (0, 0))
        (Tree.leavesF c1wtree 1 c1wtree.root) c1wray (1 / 1000) 100
        HitRecord.new).1 ∧
    ((linearHit (fun _ => 1) (fun _ => (0, 0))
        (Tree.leavesF c1wtree 1 c1wtree.root) c1wray (1 / 1000) 100
        HitRecord.new).1 = true →
      (Tree.hitF (fun _ => 1) (fun _ => (0, 0)) c1wtree 1 c1wray (1 / 1000)
          100 HitRecord.new c1wtree.root).2.t =
        (linearHit (fun _ => 1) (fun _ => (0, 0))
          (Tree.leavesF c1wtree 1 c1wtree.root) c1wray (1 / 1000) 100
          HitRecord.new).2.t) := by
  refine claim_C1 (fun _ => 1) (fun _ => (0, 0)) (fun _ => 0) [c1wsph] 1
    c1wtree c1wray (1 / 1000) 100 HitRecord.new 1 (by simp) (by simp)
    ?_ (by norm_num [c1wtree]) (by norm_num) ?_
  · simp only [Tree.build, Tree.conF, List.mergeSort_singleton, Tree.new_leaf]
    norm_num [c1wtree, c1wsph, Hittable.bounding_box, Vec3.mk3, Vec3.add_def,
      Vec3.sub_def]
  · intro i flv b hscan
    exfalso
    rcases flv with _ | flv
    · simp [Tree.leavesF, scanL] at hscan
    · rcases i with _ | i
      · norm_num [Tree.leavesF, c1wtree, scanL, Hittable.hit.eq_def, c1wsph,
          c1wray, HitRecord.new, dot, Vec3.length_squared, Vec3.sub_def,
          Node.junk] at hscan
      · simp [Tree.leavesF, c1wtree, Node.junk, scanL] at hscan

end RustTracer

